import Mathlib

/-!
Verification of the CareForHospitals data pipeline.

Shallow embedding of the core of the repository:
  - src/cleaningdata.py : state-week aggregation, percent normalization,
    missing-value strategies, lag/rolling feature construction;
  - src/train.py : forward-target construction and time-based split;
  - src/predict_next_week.py : neighbor suggestion and recommendation text.

Tables are lists of records; a pandas NaN cell is `none`; dates are integers
(day ordinals); floats are rationals.
-/

deriving instance DecidableEq for Except

namespace CareForHospitals

/-- A numeric cell of a table: `none` models a pandas `NaN`. -/
abbrev Cell := Option ℚ

/-- pandas `Series.sum()`: missing values are skipped, the empty sum is 0. -/
def cellSum (l : List Cell) : ℚ :=
  (l.filterMap id).sum

/-- pandas `Series.mean()`: mean of the non-missing values, `NaN` if all missing. -/
def cellMean (l : List Cell) : Cell :=
  let v := l.filterMap id
  if v.isEmpty then none else some (v.sum / v.length)

/-- pandas `Series.max()` over the non-missing values (`NaN` if all missing). -/
def cellMax (l : List Cell) : Cell :=
  (l.filterMap id).max?

/-- pandas `Series.median()` over the non-missing values (`NaN` if all missing). -/
def cellMedian (l : List Cell) : Cell :=
  let v := (l.filterMap id).mergeSort (fun a b => decide (a ≤ b))
  let n := v.length
  if n = 0 then none
  else if n % 2 = 1 then some (v.getD (n / 2) 0)
  else some ((v.getD (n / 2 - 1) 0 + v.getD (n / 2) 0) / 2)

/-- NaN-propagating addition of two cells (pandas `+` on possibly-NaN scalars). -/
def cellAdd : Cell → Cell → Cell
  | some a, some b => some (a + b)
  | _, _ => none

/-- `fillna`: replace a missing cell by the fallback cell. -/
def cellFill (fallback c : Cell) : Cell :=
  match c with
  | some v => some v
  | none => fallback

/-- The fixed `US_STATES` list of `cleaningdata.py`. -/
def US_STATES : List String :=
  ["AL","AK","AZ","AR","CA","CO","CT","DE","FL","GA",
   "HI","IA","ID","IL","IN","KS","KY","LA","ME","MD",
   "MA","MI","MN","MS","MO","MT","NE","NV","NH","NJ",
   "NM","NY","NC","ND","OH","OK","OR","PA","RI","SC",
   "SD","TN","TX","UT","VT","VA","WA","WI","WV","WY"]

/-- `PreprocessConfig` (the path fields play no role in the cleaning logic). -/
structure PreprocessConfig where
  keep_only_50_states : Bool := true
  missing_strategy : String := "state_median"
  normalize_percent_columns : Bool := true
deriving DecidableEq, Repr

/-- The 16 numeric columns kept by the cleaner, in source order:
`CAPACITY_COLS`, `STRESS_COLS`, `DISEASE_COLS`, `REPORTING_COLS`. -/
structure Vals where
  nInpBeds : Cell
  nInpOcc : Cell
  nIcuBeds : Cell
  nIcuOcc : Cell
  pctInpOcc : Cell
  pctIcuOcc : Cell
  covid : Cell
  flu : Cell
  rsv : Cell
  covidIcu : Cell
  fluIcu : Cell
  rsvIcu : Cell
  nRepInp : Cell
  nRepIcu : Cell
  pctRepInp : Cell
  pctRepIcu : Cell
deriving DecidableEq, Repr

/-- A raw CSV row after column selection and numeric coercion:
the week-ending date may fail to parse (`none`), the state may be missing. -/
structure RawRow where
  weekDate : Option Int
  state : Option String
  vals : Vals
deriving DecidableEq, Repr

/-- A row whose identifying columns are present (after
`dropna(subset=["Week Ending Date", "Geographic aggregation"])`).
Also the shape of an aggregated state-week row. -/
structure PrepRow where
  state : String
  week : Int
  vals : Vals
deriving DecidableEq, Repr

/-- All 16 numeric cells present (a row `dropna()` keeps). -/
def allSome (v : Vals) : Bool :=
  v.nInpBeds.isSome && v.nInpOcc.isSome && v.nIcuBeds.isSome && v.nIcuOcc.isSome &&
  v.pctInpOcc.isSome && v.pctIcuOcc.isSome &&
  v.covid.isSome && v.flu.isSome && v.rsv.isSome &&
  v.covidIcu.isSome && v.fluIcu.isSome && v.rsvIcu.isSome &&
  v.nRepInp.isSome && v.nRepIcu.isSome && v.pctRepInp.isSome && v.pctRepIcu.isSome

/-- `_normalize_percent_if_needed`: drop the missing values; if none remain
return the column unchanged; if the maximum is at most 1.5 multiply the whole
column by 100; otherwise return it unchanged. -/
def normalize_percent_if_needed (col : List Cell) : List Cell :=
  match cellMax col with
  | none => col
  | some m => if m ≤ 3 / 2 then col.map (Option.map (· * 100)) else col

/-- Whether `_normalize_percent_if_needed` rescales this column. -/
def scaleNeeded (col : List Cell) : Bool :=
  match cellMax col with
  | none => false
  | some m => decide (m ≤ 3 / 2)

/-- `dropna(subset=["Week Ending Date", "Geographic aggregation"])`. -/
def dropIdNa (raw : List RawRow) : List PrepRow :=
  raw.filterMap fun r =>
    match r.weekDate, r.state with
    | some w, some s => some ⟨s, w, r.vals⟩
    | _, _ => none

/-- The `isin(US_STATES)` filter, applied when `keep_only_50_states` is set. -/
def filter50 (cfg : PreprocessConfig) (rows : List PrepRow) : List PrepRow :=
  if cfg.keep_only_50_states then rows.filter (fun r => US_STATES.contains r.state) else rows

/-- Column-wise percent normalization of the four percent columns, as done in
`make_clean_state_week`: each column is rescaled exactly when
`_normalize_percent_if_needed` would rescale it (the decision looks at the
whole column across all rows). -/
def normalizePercents (rows : List PrepRow) : List PrepRow :=
  let sInp := scaleNeeded (rows.map (fun r => r.vals.pctInpOcc))
  let sIcu := scaleNeeded (rows.map (fun r => r.vals.pctIcuOcc))
  let sRepInp := scaleNeeded (rows.map (fun r => r.vals.pctRepInp))
  let sRepIcu := scaleNeeded (rows.map (fun r => r.vals.pctRepIcu))
  rows.map fun r =>
    { r with vals :=
      { r.vals with
        pctInpOcc := if sInp then r.vals.pctInpOcc.map (· * 100) else r.vals.pctInpOcc
        pctIcuOcc := if sIcu then r.vals.pctIcuOcc.map (· * 100) else r.vals.pctIcuOcc
        pctRepInp := if sRepInp then r.vals.pctRepInp.map (· * 100) else r.vals.pctRepInp
        pctRepIcu := if sRepIcu then r.vals.pctRepIcu.map (· * 100) else r.vals.pctRepIcu } }

/-- Everything `make_clean_state_week` does to the raw table before grouping:
drop rows with missing identifiers, restrict to the 50 states, normalize the
percent columns. -/
def prepStage (raw : List RawRow) (cfg : PreprocessConfig) : List PrepRow :=
  let p := filter50 cfg (dropIdNa raw)
  if cfg.normalize_percent_columns then normalizePercents p else p

/-- The (state, week) grouping key of a row. -/
def rowKey (r : PrepRow) : String × Int :=
  (r.state, r.week)

/-- Ordering used by `groupby(sort=True)` / `sort_values`: by state, then week. -/
def keyLe (a b : String × Int) : Bool :=
  decide (a.1 < b.1) || (a.1 == b.1 && decide (a.2 ≤ b.2))

/-- The distinct group keys, in sorted order (pandas `groupby` sorts keys). -/
def sortedKeys (rows : List PrepRow) : List (String × Int) :=
  ((rows.map rowKey).dedup).mergeSort keyLe

/-- The rows contributing to one (state, week) group. -/
def groupRows (rows : List PrepRow) (k : String × Int) : List PrepRow :=
  rows.filter (fun r => rowKey r == k)

/-- One aggregated row, per the `agg_dict` of `make_clean_state_week`:
capacity counts, disease counts and reporting counts by `sum`;
occupancy percentages and reporting percentages by `mean`. -/
def aggGroup (rows : List PrepRow) (k : String × Int) : PrepRow :=
  let g := groupRows rows k
  { state := k.1, week := k.2, vals :=
    { nInpBeds := some (cellSum (g.map (fun r => r.vals.nInpBeds)))
      nInpOcc := some (cellSum (g.map (fun r => r.vals.nInpOcc)))
      nIcuBeds := some (cellSum (g.map (fun r => r.vals.nIcuBeds)))
      nIcuOcc := some (cellSum (g.map (fun r => r.vals.nIcuOcc)))
      pctInpOcc := cellMean (g.map (fun r => r.vals.pctInpOcc))
      pctIcuOcc := cellMean (g.map (fun r => r.vals.pctIcuOcc))
      covid := some (cellSum (g.map (fun r => r.vals.covid)))
      flu := some (cellSum (g.map (fun r => r.vals.flu)))
      rsv := some (cellSum (g.map (fun r => r.vals.rsv)))
      covidIcu := some (cellSum (g.map (fun r => r.vals.covidIcu)))
      fluIcu := some (cellSum (g.map (fun r => r.vals.fluIcu)))
      rsvIcu := some (cellSum (g.map (fun r => r.vals.rsvIcu)))
      nRepInp := some (cellSum (g.map (fun r => r.vals.nRepInp)))
      nRepIcu := some (cellSum (g.map (fun r => r.vals.nRepIcu)))
      pctRepInp := cellMean (g.map (fun r => r.vals.pctRepInp))
      pctRepIcu := cellMean (g.map (fun r => r.vals.pctRepIcu)) } }

/-- `groupby(["Geographic aggregation", "Week Ending Date"]).agg(agg_dict)`
followed by `sort_values` on the same keys: one row per distinct key, in
sorted key order. -/
def aggregate (rows : List PrepRow) : List PrepRow :=
  (sortedKeys rows).map (aggGroup rows)

/-- The distinct states of a table, in order of first appearance. -/
def statesOf (rows : List PrepRow) : List String :=
  (rows.map (fun r => r.state)).dedup

/-- `dropna()`: keep only rows with all 16 numeric cells present. -/
def dropnaAll (rows : List PrepRow) : List PrepRow :=
  rows.filter (fun r => allSome r.vals)

/-- Forward-fill each cell of a row from the running carry; the carry holds,
per column, the last non-missing value seen so far in the state's sequence. -/
def fillVals (carry v : Vals) : Vals :=
  { nInpBeds := cellFill carry.nInpBeds v.nInpBeds
    nInpOcc := cellFill carry.nInpOcc v.nInpOcc
    nIcuBeds := cellFill carry.nIcuBeds v.nIcuBeds
    nIcuOcc := cellFill carry.nIcuOcc v.nIcuOcc
    pctInpOcc := cellFill carry.pctInpOcc v.pctInpOcc
    pctIcuOcc := cellFill carry.pctIcuOcc v.pctIcuOcc
    covid := cellFill carry.covid v.covid
    flu := cellFill carry.flu v.flu
    rsv := cellFill carry.rsv v.rsv
    covidIcu := cellFill carry.covidIcu v.covidIcu
    fluIcu := cellFill carry.fluIcu v.fluIcu
    rsvIcu := cellFill carry.rsvIcu v.rsvIcu
    nRepInp := cellFill carry.nRepInp v.nRepInp
    nRepIcu := cellFill carry.nRepIcu v.nRepIcu
    pctRepInp := cellFill carry.pctRepInp v.pctRepInp
    pctRepIcu := cellFill carry.pctRepIcu v.pctRepIcu }

/-- The all-missing carry used at the start of each state's sequence. -/
def noneVals : Vals :=
  ⟨none, none, none, none, none, none, none, none,
   none, none, none, none, none, none, none, none⟩

/-- `groupby("Geographic aggregation")[...].ffill()` within one state's
chronological sequence. -/
def ffillSeq (carry : Vals) : List PrepRow → List PrepRow
  | [] => []
  | r :: rs =>
    let v := fillVals carry r.vals
    { r with vals := v } :: ffillSeq v rs

/-- Per-state forward fill of the whole (state, week)-sorted table. Since the
table is sorted by state first, each state's rows are contiguous, so this
equals the pandas group-wise `ffill` in both content and order. -/
def ffillByState (rows : List PrepRow) : List PrepRow :=
  (statesOf rows).flatMap fun st => ffillSeq noneVals (rows.filter (fun r => r.state == st))

/-- `fillna` every cell with the state's own median of that column
(`groupby("Geographic aggregation")[col].transform("median")`). -/
def medianFill (rows : List PrepRow) : List PrepRow :=
  rows.map fun r =>
    let g := rows.filter (fun x => x.state == r.state)
    { r with vals :=
      { nInpBeds := cellFill (cellMedian (g.map (fun x => x.vals.nInpBeds))) r.vals.nInpBeds
        nInpOcc := cellFill (cellMedian (g.map (fun x => x.vals.nInpOcc))) r.vals.nInpOcc
        nIcuBeds := cellFill (cellMedian (g.map (fun x => x.vals.nIcuBeds))) r.vals.nIcuBeds
        nIcuOcc := cellFill (cellMedian (g.map (fun x => x.vals.nIcuOcc))) r.vals.nIcuOcc
        pctInpOcc := cellFill (cellMedian (g.map (fun x => x.vals.pctInpOcc))) r.vals.pctInpOcc
        pctIcuOcc := cellFill (cellMedian (g.map (fun x => x.vals.pctIcuOcc))) r.vals.pctIcuOcc
        covid := cellFill (cellMedian (g.map (fun x => x.vals.covid))) r.vals.covid
        flu := cellFill (cellMedian (g.map (fun x => x.vals.flu))) r.vals.flu
        rsv := cellFill (cellMedian (g.map (fun x => x.vals.rsv))) r.vals.rsv
        covidIcu := cellFill (cellMedian (g.map (fun x => x.vals.covidIcu))) r.vals.covidIcu
        fluIcu := cellFill (cellMedian (g.map (fun x => x.vals.fluIcu))) r.vals.fluIcu
        rsvIcu := cellFill (cellMedian (g.map (fun x => x.vals.rsvIcu))) r.vals.rsvIcu
        nRepInp := cellFill (cellMedian (g.map (fun x => x.vals.nRepInp))) r.vals.nRepInp
        nRepIcu := cellFill (cellMedian (g.map (fun x => x.vals.nRepIcu))) r.vals.nRepIcu
        pctRepInp := cellFill (cellMedian (g.map (fun x => x.vals.pctRepInp))) r.vals.pctRepInp
        pctRepIcu := cellFill (cellMedian (g.map (fun x => x.vals.pctRepIcu))) r.vals.pctRepIcu } }

/-- `dropna(subset=["Percent ICU Beds Occupied", "Percent Inpatient Beds Occupied"])`. -/
def dropnaPct (rows : List PrepRow) : List PrepRow :=
  rows.filter (fun r => r.vals.pctIcuOcc.isSome && r.vals.pctInpOcc.isSome)

/-- `make_clean_state_week`: prepare, aggregate to state-week, then apply the
selected missing-value strategy; an unrecognized strategy raises `ValueError`.
The raw-CSV schema check (`KeyError` on missing columns) is a column-name
concern that the typed row embedding renders moot. -/
def make_clean_state_week (raw : List RawRow) (cfg : PreprocessConfig) :
    Except String (List PrepRow) :=
  let sw := aggregate (prepStage raw cfg)
  if cfg.missing_strategy = "drop" then .ok (dropnaAll sw)
  else if cfg.missing_strategy = "ffill" then .ok (dropnaAll (ffillByState sw))
  else if cfg.missing_strategy = "state_median" then .ok (dropnaPct (medianFill sw))
  else .error "missing_strategy must be one of: drop, ffill, state_median"

/-- Row ordering of `sort_values(["Geographic aggregation", "Week Ending Date"])`. -/
def rowLe (a b : PrepRow) : Bool :=
  keyLe (rowKey a) (rowKey b)

/-- A model-ready row: a state-week row extended with the lag-1 features and
the trailing 4-week rolling means added by `make_model_ready`. -/
structure MRRow where
  base : PrepRow
  icuLast : Cell
  inpLast : Cell
  covidLast : Cell
  fluLast : Cell
  rsvLast : Cell
  covidIcuLast : Cell
  fluIcuLast : Cell
  rsvIcuLast : Cell
  icu4wAvg : Cell
  inp4wAvg : Cell
deriving DecidableEq, Repr

/-- `shift(1)` within one state's chronological sequence: the previous row's
cell, `NaN` at the first row. -/
def lagAt (seq : List PrepRow) (i : Nat) (f : PrepRow → Cell) : Cell :=
  match i with
  | 0 => none
  | j + 1 => (seq[j]?).bind f

/-- The four cells of the `rolling(4)` window ending at position `i`. -/
def window4 (seq : List PrepRow) (i : Nat) (f : PrepRow → Cell) : List Cell :=
  (List.range 4).map fun k => (seq[i - 3 + k]?).bind f

/-- `rolling(4).mean()` at position `i` of one state's sequence: `NaN` for the
first three rows, and `NaN` whenever any of the four window values is missing
(`min_periods` defaults to the window size); otherwise the mean of the four. -/
def roll4At (seq : List PrepRow) (i : Nat) (f : PrepRow → Cell) : Cell :=
  if 3 ≤ i then
    let w := window4 seq i f
    if w.all Option.isSome then some ((w.filterMap id).sum / 4) else none
  else none

/-- The feature columns `make_model_ready` attaches to the row at position `i`
of one state's chronological sequence. -/
def featAt (seq : List PrepRow) (i : Nat) (r : PrepRow) : MRRow :=
  { base := r
    icuLast := lagAt seq i (fun x => x.vals.pctIcuOcc)
    inpLast := lagAt seq i (fun x => x.vals.pctInpOcc)
    covidLast := lagAt seq i (fun x => x.vals.covid)
    fluLast := lagAt seq i (fun x => x.vals.flu)
    rsvLast := lagAt seq i (fun x => x.vals.rsv)
    covidIcuLast := lagAt seq i (fun x => x.vals.covidIcu)
    fluIcuLast := lagAt seq i (fun x => x.vals.fluIcu)
    rsvIcuLast := lagAt seq i (fun x => x.vals.rsvIcu)
    icu4wAvg := roll4At seq i (fun x => x.vals.pctIcuOcc)
    inp4wAvg := roll4At seq i (fun x => x.vals.pctInpOcc) }

/-- Lag and rolling features over one state's chronological sequence. -/
def withFeatures (seq : List PrepRow) : List MRRow :=
  seq.mapIdx (featAt seq)

/-- The `dropna` subset of `make_model_ready`: both lag-1 occupancy features
and both 4-week rolling means must be present. -/
def derivedOk (m : MRRow) : Bool :=
  m.icuLast.isSome && m.inpLast.isSome && m.icu4wAvg.isSome && m.inp4wAvg.isSome

/-- One state's chronological sequence inside the sorted table. -/
def stateSeq (rows : List PrepRow) (st : String) : List PrepRow :=
  (rows.mergeSort rowLe).filter (fun r => r.state == st)

/-- `make_model_ready`: sort by (state, week), add per-state lag-1 features and
4-week rolling means, then drop every row missing any of the four derived
occupancy features. Grouping is by state, so the result is the concatenation of
the per-state feature tables (states are contiguous in the sorted table). -/
def make_model_ready (rows : List PrepRow) : List MRRow :=
  let sorted := rows.mergeSort rowLe
  (((statesOf sorted).map fun st => withFeatures (sorted.filter (fun r => r.state == st))).flatten).filter derivedOk

/-! ### predict_next_week.py : neighbor suggestion and recommendation text -/

/-- The fixed `NEIGHBORS` land-border adjacency map (Alaska and Hawaii have no
land neighbors). -/
def NEIGHBORS : List (String × List String) :=
  [("AL", ["FL", "GA", "MS", "TN"]),
   ("AK", []),
   ("AZ", ["CA", "CO", "NM", "NV", "UT"]),
   ("AR", ["LA", "MO", "MS", "OK", "TN", "TX"]),
   ("CA", ["AZ", "NV", "OR"]),
   ("CO", ["AZ", "KS", "NE", "NM", "OK", "UT", "WY"]),
   ("CT", ["MA", "NY", "RI"]),
   ("DE", ["MD", "NJ", "PA"]),
   ("FL", ["AL", "GA"]),
   ("GA", ["AL", "FL", "NC", "SC", "TN"]),
   ("HI", []),
   ("ID", ["MT", "NV", "OR", "UT", "WA", "WY"]),
   ("IL", ["IN", "IA", "KY", "MO", "WI", "MI"]),
   ("IN", ["IL", "KY", "MI", "OH"]),
   ("IA", ["IL", "MN", "MO", "NE", "SD", "WI"]),
   ("KS", ["CO", "MO", "NE", "OK"]),
   ("KY", ["IL", "IN", "MO", "OH", "TN", "VA", "WV"]),
   ("LA", ["AR", "MS", "TX"]),
   ("ME", ["NH"]),
   ("MD", ["DE", "PA", "VA", "WV"]),
   ("MA", ["CT", "NH", "NY", "RI", "VT"]),
   ("MI", ["IN", "OH", "WI", "IL"]),
   ("MN", ["IA", "ND", "SD", "WI"]),
   ("MS", ["AL", "AR", "LA", "TN"]),
   ("MO", ["AR", "IA", "IL", "KS", "KY", "NE", "OK", "TN"]),
   ("MT", ["ID", "ND", "SD", "WY"]),
   ("NE", ["CO", "IA", "KS", "MO", "SD", "WY"]),
   ("NV", ["AZ", "CA", "ID", "OR", "UT"]),
   ("NH", ["MA", "ME", "VT"]),
   ("NJ", ["DE", "NY", "PA"]),
   ("NM", ["AZ", "CO", "OK", "TX", "UT"]),
   ("NY", ["CT", "MA", "NJ", "PA", "VT"]),
   ("NC", ["GA", "SC", "TN", "VA"]),
   ("ND", ["MN", "MT", "SD"]),
   ("OH", ["IN", "KY", "MI", "PA", "WV"]),
   ("OK", ["AR", "CO", "KS", "MO", "NM", "TX"]),
   ("OR", ["CA", "ID", "NV", "WA"]),
   ("PA", ["DE", "MD", "NJ", "NY", "OH", "WV"]),
   ("RI", ["CT", "MA"]),
   ("SC", ["GA", "NC"]),
   ("SD", ["IA", "MN", "MT", "ND", "NE", "WY"]),
   ("TN", ["AL", "AR", "GA", "KY", "MO", "MS", "NC", "VA"]),
   ("TX", ["AR", "LA", "NM", "OK"]),
   ("UT", ["AZ", "CO", "ID", "NM", "NV", "WY"]),
   ("VT", ["MA", "NH", "NY"]),
   ("VA", ["KY", "MD", "NC", "TN", "WV"]),
   ("WA", ["ID", "OR"]),
   ("WV", ["KY", "MD", "OH", "PA", "VA"]),
   ("WI", ["IA", "IL", "MI", "MN"]),
   ("WY", ["CO", "ID", "MT", "NE", "SD", "UT"])]

/-- `state in NEIGHBORS` / `NEIGHBORS[state]`. -/
def neighborsOf (st : String) : Option (List String) :=
  (NEIGHBORS.find? (fun p => p.1 == st)).map (fun p => p.2)

/-- One row of the per-state prediction table used as `lookup` (indexed by
state; the three numeric columns read by `suggest_neighbor`). -/
structure PredRow where
  state : String
  proba : ℚ
  icu : ℚ
  inp : ℚ
deriving DecidableEq, Repr

/-- `nb in lookup.index` plus `lookup.loc[nb, ...]` access. -/
def lookupRow (tbl : List PredRow) (st : String) : Option PredRow :=
  tbl.find? (fun r => r.state == st)

/-- One candidate tuple `(nb, proba, icu, inp)` built by `suggest_neighbor`. -/
structure Candidate where
  name : String
  proba : ℚ
  icu : ℚ
  inp : ℚ
deriving DecidableEq, Repr

/-- The sort key `(x[1], x[2], x[3])` of a candidate. -/
def candKey (c : Candidate) : ℚ × ℚ × ℚ :=
  (c.proba, c.icu, c.inp)

/-- Python's lexicographic order on rational triples, as a Boolean relation. -/
def tripLe (a b : ℚ × ℚ × ℚ) : Bool :=
  decide (a.1 < b.1) ||
    (a.1 == b.1 &&
      (decide (a.2.1 < b.2.1) || (a.2.1 == b.2.1 && decide (a.2.2 ≤ b.2.2))))

/-- Comparison used by `sorted(candidates, key=lambda x: (x[1], x[2], x[3]))`. -/
def candLe (a b : Candidate) : Bool :=
  tripLe (candKey a) (candKey b)

/-- The candidate list of `suggest_neighbor`: the state's neighbors present in
the lookup table, in adjacency-list order, with their three predicted values. -/
def candidatesFor (st : String) (tbl : List PredRow) : List Candidate :=
  ((neighborsOf st).getD []).filterMap fun nb =>
    (lookupRow tbl nb).map fun r => ⟨nb, r.proba, r.icu, r.inp⟩

/-- `suggest_neighbor`: empty answer when the state is not a key of the
adjacency map or no neighbor is present in the table; otherwise the first
element of the candidate list stably sorted by (proba, icu, inp). -/
def suggest_neighbor (st : String) (tbl : List PredRow) : String :=
  match neighborsOf st with
  | none => ""
  | some nbs =>
    let candidates := nbs.filterMap fun nb =>
      (lookupRow tbl nb).map fun r => Candidate.mk nb r.proba r.icu r.inp
    match candidates.mergeSort candLe with
    | [] => ""
    | best :: _ => best.name

/-- One forecast row as consumed by `recommend_action`: predicted ICU percent,
predicted inpatient percent, binary risk label, risk probability, and the
suggested neighbor (the empty string models a missing/empty neighbor, exactly
the falsy cases of `str(row.get("suggested_neighbor_state", "") or "")`). -/
structure ForecastRow where
  icu : ℚ
  inp : ℚ
  risk : Int
  proba : ℚ
  neighbor : String
deriving DecidableEq, Repr

/-- The HIGH-tier message, with the neighbor appended when present. -/
def highMsg (neighbor : String) : String :=
  "HIGH RISK: Increase surge monitoring, review staffing/bed capacity plans, and coordinate regionally for potential load balancing." ++
    (if neighbor = "" then "" else " Potential lower-risk neighbor: " ++ neighbor ++ ".")

/-- The MODERATE-tier message, with the neighbor appended when present. -/
def modMsg (neighbor : String) : String :=
  "MODERATE: Monitor closely and prepare contingency plans." ++
    (if neighbor = "" then "" else " Nearby alternative option: " ++ neighbor ++ ".")

/-- The LOW-tier message. -/
def lowMsg : String :=
  "LOW: Normal monitoring."

/-- `recommend_action`. -/
def recommend_action (r : ForecastRow) : String :=
  if r.risk = 1 ∨ (85 ≤ r.icu ∧ 85 ≤ r.inp) then highMsg r.neighbor
  else if 80 ≤ r.icu ∨ 85 ≤ r.inp ∨ 12 / 100 ≤ r.proba then modMsg r.neighbor
  else lowMsg

/-! ### train.py : forward targets, critical-stress label, time-based split -/

/-- `disease_burden`: the NaN-propagating sum of the three total-hospitalized
disease counts of one row. -/
def diseaseBurden (m : MRRow) : Cell :=
  cellAdd (cellAdd m.base.vals.covid m.base.vals.flu) m.base.vals.rsv

/-- Ordering of `sort_values(["Geographic aggregation", "Week Ending Date"])`
on model-ready rows. -/
def mrLe (a b : MRRow) : Bool :=
  rowLe a.base b.base

/-- One state's chronological sequence of model-ready rows. -/
def mrStateSeq (rows : List MRRow) (st : String) : List MRRow :=
  (rows.mergeSort mrLe).filter (fun r => r.base.state == st)

/-- A training row: a model-ready row with its three forward-shifted targets
and the binary critical-stress label. -/
structure TargetRow where
  row : MRRow
  icuNext : Cell
  inpNext : Cell
  diseaseNext : Cell
  label : Int
deriving DecidableEq, Repr

/-- pandas `series >= c` on a possibly-NaN value: `False` when missing. -/
def cellGe (c : Cell) (t : ℚ) : Bool :=
  match c with
  | some v => decide (t ≤ v)
  | none => false

/-- Targets over one state's chronological sequence: each target column is the
`shift(-1)` of the corresponding value, and the label is 1 exactly when the
shifted ICU percent or the shifted inpatient percent is at least 85 (a missing
shifted value compares as `False`). -/
def targetsOfSeq (seq : List MRRow) : List TargetRow :=
  seq.mapIdx fun i r =>
    let nxt := seq[i + 1]?
    let icuN := nxt.bind fun x => x.base.vals.pctIcuOcc
    let inpN := nxt.bind fun x => x.base.vals.pctInpOcc
    { row := r
      icuNext := icuN
      inpNext := inpN
      diseaseNext := nxt.bind diseaseBurden
      label := if cellGe icuN 85 || cellGe inpN 85 then 1 else 0 }

/-- The distinct states of a model-ready table. -/
def mrStatesOf (rows : List MRRow) : List String :=
  (rows.map (fun r => r.base.state)).dedup

/-- Target construction over the whole table: sort by (state, week) and apply
the forward shifts within each state (states are contiguous after sorting). -/
def buildTargets (rows : List MRRow) : List TargetRow :=
  let sorted := rows.mergeSort mrLe
  (mrStatesOf sorted).flatMap fun st =>
    targetsOfSeq (sorted.filter (fun r => r.base.state == st))

/-- `dropna(subset=["icu_pct_next_week", "inpatient_pct_next_week",
"disease_burden_next_week"])`. -/
def dropTargetNa (l : List TargetRow) : List TargetRow :=
  l.filter fun t => t.icuNext.isSome && t.inpNext.isSome && t.diseaseNext.isSome

/-- pandas `Series.quantile(q)` with linear interpolation: on the sorted
non-missing values `v` of length `n`, the value at fractional position
`q * (n - 1)`; `NaN` on an empty series. -/
def pandasQuantile (l : List ℚ) (q : ℚ) : Option ℚ :=
  let v := l.mergeSort (fun a b => decide (a ≤ b))
  match v with
  | [] => none
  | _ =>
    let n := v.length
    let pos : ℚ := q * ((n : ℚ) - 1)
    let i : Nat := pos.floor.toNat
    let lo := v.getD i 0
    let hi := v.getD (i + 1) lo
    some (lo + (pos - (i : ℚ)) * (hi - lo))

/-- `split_date = df["Week Ending Date"].quantile(0.8)`, over the rows that
survive the target `dropna`. -/
def splitDate (l : List TargetRow) : Option ℚ :=
  pandasQuantile (l.map fun t => ((t.row.base.week : Int) : ℚ)) (4 / 5)

/-- `train = df[df["Week Ending Date"] <= split_date]`: the training rows, in
unchanged order (no shuffling). An empty frame has a `NaN` split date, and
`date <= NaN` is `False` everywhere. -/
def trainSet (rows : List MRRow) : List TargetRow :=
  let kept := dropTargetNa (buildTargets rows)
  match splitDate kept with
  | none => []
  | some d => kept.filter fun t => decide (((t.row.base.week : Int) : ℚ) ≤ d)

example : cellSum [some 2, none, some 3] = 5 := by with_unfolding_all decide
example : cellMean [some 2, none, some 4] = some 3 := by with_unfolding_all decide
example : cellMedian [some 4, some 1, none, some 3] = some 3 := by with_unfolding_all decide
example : cellMedian [some 4, some 1, some 2, some 3] = some (5 / 2) := by
  with_unfolding_all decide
example : normalize_percent_if_needed [some (7 / 10), none, some 1] =
    [some 70, none, some 100] := by with_unfolding_all decide
example : normalize_percent_if_needed [some 70, none, some 100] =
    [some 70, none, some 100] := by with_unfolding_all decide

/-! ### Helper lemmas -/

instance : Std.Antisymm (fun a b : ℚ => a ≤ b) :=
  ⟨fun h1 h2 => le_antisymm h1 h2⟩

/-- `cellMax` returns exactly the maximum of the non-missing values. -/
lemma cellMax_eq_some_iff {col : List Cell} {m : ℚ} :
    cellMax col = some m ↔ m ∈ col.filterMap id ∧ ∀ x ∈ col.filterMap id, x ≤ m := by
  unfold cellMax
  exact List.max?_eq_some_iff le_refl max_choice (fun _ _ _ => max_le_iff)

/-- Scaling a whole column of cells commutes with extracting the non-missing
values. -/
lemma filterMap_id_map_optionMap (f : ℚ → ℚ) (col : List Cell) :
    (col.map (Option.map f)).filterMap id = (col.filterMap id).map f := by
  induction col with
  | nil => rfl
  | cons c cs ih => cases c <;> simp [ih]

/-! ### C8 : unrecognized missing-value strategy -/

/-- C8: for every input table and every missing-value strategy other than
drop, ffill or state_median, `make_clean_state_week` fails with the
configuration error; the resulting error does not depend on the table in any
way (the observable content, for a pure transform, of the error being raised
independently of the aggregation work). -/
theorem spec_C8 (raw : List RawRow) (cfg : PreprocessConfig)
    (h1 : cfg.missing_strategy ≠ "drop") (h2 : cfg.missing_strategy ≠ "ffill")
    (h3 : cfg.missing_strategy ≠ "state_median") :
    make_clean_state_week raw cfg =
      .error "missing_strategy must be one of: drop, ffill, state_median" := by
  simp [make_clean_state_week, h1, h2, h3]

/-- Witness for C8 at a concrete table and the unrecognized strategy "mean". -/
theorem spec_C8_witness :
    make_clean_state_week
        [⟨some 0, some "AL", noneVals⟩] ⟨true, "mean", true⟩ =
      .error "missing_strategy must be one of: drop, ffill, state_median" :=
  spec_C8 [⟨some 0, some "AL", noneVals⟩] ⟨true, "mean", true⟩
    (by decide) (by decide) (by decide)

/-! ### C9 : percent-normalization contract -/

/-- C9: a percent column is multiplied by 100 exactly when the maximum of its
non-missing values is at most 1.5; it is returned unchanged when that maximum
exceeds 1.5; and a column with no non-missing values is returned unchanged. -/
theorem spec_C9 :
    (∀ col : List Cell, col.filterMap id = [] →
      normalize_percent_if_needed col = col)
    ∧ (∀ (col : List Cell) (m : ℚ), m ∈ col.filterMap id →
        (∀ x ∈ col.filterMap id, x ≤ m) →
        ((m ≤ 3 / 2 →
            normalize_percent_if_needed col = col.map (Option.map (· * 100)))
          ∧ (3 / 2 < m → normalize_percent_if_needed col = col))) := by
  constructor
  · intro col h
    unfold normalize_percent_if_needed cellMax
    rw [h]
    rfl
  · intro col m hmem hub
    have hmax : cellMax col = some m := cellMax_eq_some_iff.mpr ⟨hmem, hub⟩
    unfold normalize_percent_if_needed
    rw [hmax]
    dsimp only
    constructor
    · intro hle
      rw [if_pos hle]
    · intro hlt
      rw [if_neg (not_le.mpr hlt)]

/-- Witness for C9: a proportion-encoded column (maximum 1) is rescaled. -/
theorem spec_C9_witness :
    normalize_percent_if_needed [some 1, none, some (1 / 2)] =
      [some 1, none, some (1 / 2)].map (Option.map (· * 100)) :=
  (spec_C9.2 [some 1, none, some (1 / 2)] 1
    (by with_unfolding_all decide) (by with_unfolding_all decide)).1 (by norm_num)

/-! ### C5 : post-normalization range -/

/-- C5 counterexample: the claim asserts every non-missing value lies in
[0, 100] after normalization, with no assumption on the input column; but the
column `[1.4]` has maximum at most 1.5, is multiplied by 100, and yields 140,
which is outside [0, 100]. -/
theorem spec_C5_counterexample :
    normalize_percent_if_needed [some (7 / 5)] = [some 140] ∧
      ¬((140 : ℚ) ≤ 100) := by
  with_unfolding_all decide

/-- C5 as amended: if every non-missing input value lies in [0, 100] and the
input maximum is not in the ambiguous band (1, 1.5] — every value is at most 1,
or some value exceeds 1.5 — then after normalization every non-missing value
lies in [0, 100]. -/
theorem spec_C5 (col : List Cell)
    (hrange : ∀ x ∈ col.filterMap id, 0 ≤ x ∧ x ≤ 100)
    (hgap : (∀ x ∈ col.filterMap id, x ≤ 1) ∨ (∃ x ∈ col.filterMap id, 3 / 2 < x)) :
    ∀ v ∈ (normalize_percent_if_needed col).filterMap id, 0 ≤ v ∧ v ≤ 100 := by
  unfold normalize_percent_if_needed
  cases hmax : cellMax col with
  | none => exact hrange
  | some m =>
    have hm := cellMax_eq_some_iff.mp hmax
    dsimp only
    by_cases hle : m ≤ 3 / 2
    · rcases hgap with hall | ⟨x, hx, hxgt⟩
      · rw [if_pos hle]
        intro v hv
        rw [filterMap_id_map_optionMap] at hv
        rcases List.mem_map.mp hv with ⟨x, hx, rfl⟩
        have h1 := hall x hx
        have h0 := (hrange x hx).1
        constructor
        · positivity
        · nlinarith
      · exact absurd (le_trans (hm.2 x hx) hle) (not_le.mpr hxgt)
    · rw [if_neg hle]
      exact hrange

/-- Witness for C5 (amended) at a concrete proportion-encoded column. -/
theorem spec_C5_witness : (0 : ℚ) ≤ 50 ∧ (50 : ℚ) ≤ 100 :=
  spec_C5 [some (1 / 2), none]
    (by with_unfolding_all decide)
    (Or.inl (by with_unfolding_all decide))
    50 (by with_unfolding_all decide)

/-! ### C4 : recommendation tiers -/

/-- Two appended strings differ whenever their left parts have different first
characters. -/
lemma append_ne_of_head_ne {a b : String} (x y : String)
    (h : a.data.head? ≠ b.data.head?) (hna : a.data.head?.isSome)
    (hnb : b.data.head?.isSome) :
    a ++ x ≠ b ++ y := by
  intro e
  have h2 := congrArg (fun s : String => s.data.head?) e
  simp only [String.data_append, List.head?_append] at h2
  rcases Option.isSome_iff_exists.mp hna with ⟨c, hc⟩
  rcases Option.isSome_iff_exists.mp hnb with ⟨d, hd⟩
  rw [hc, hd] at h2
  simp only [Option.or] at h2
  rw [hc, hd] at h
  exact h (by rw [h2])

/-- The three recommendation messages are pairwise distinct, whatever the
neighbor strings. -/
lemma msgs_distinct (n m : String) :
    highMsg n ≠ modMsg m ∧ highMsg n ≠ lowMsg ∧ modMsg m ≠ lowMsg := by
  refine ⟨?_, ?_, ?_⟩
  · exact append_ne_of_head_ne _ _ (by decide) (by decide) (by decide)
  · have h0 : lowMsg = "LOW: Normal monitoring." ++ "" := rfl
    rw [h0]
    exact append_ne_of_head_ne _ _ (by decide) (by decide) (by decide)
  · have h0 : lowMsg = "LOW: Normal monitoring." ++ "" := rfl
    rw [h0]
    exact append_ne_of_head_ne _ _ (by decide) (by decide) (by decide)

/-- C4: `recommend_action` returns the HIGH-tier message exactly when the
binary risk label is 1 or both occupancy predictions are at least 85; else the
MODERATE-tier message exactly when ICU is at least 80, inpatient at least 85,
or the risk probability at least 0.12; else the LOW message. The neighbor code
is appended in the HIGH and MODERATE messages when present, and the LOW
message is the fixed neighbor-free constant. -/
theorem spec_C4 (r : ForecastRow) :
    (recommend_action r = highMsg r.neighbor ↔
      (r.risk = 1 ∨ (85 ≤ r.icu ∧ 85 ≤ r.inp)))
    ∧ (recommend_action r = modMsg r.neighbor ↔
      (¬(r.risk = 1 ∨ (85 ≤ r.icu ∧ 85 ≤ r.inp)) ∧
        (80 ≤ r.icu ∨ 85 ≤ r.inp ∨ 12 / 100 ≤ r.proba)))
    ∧ (recommend_action r = lowMsg ↔
      (¬(r.risk = 1 ∨ (85 ≤ r.icu ∧ 85 ≤ r.inp)) ∧
        ¬(80 ≤ r.icu ∨ 85 ≤ r.inp ∨ 12 / 100 ≤ r.proba)))
    ∧ (r.neighbor ≠ "" →
        highMsg r.neighbor =
          "HIGH RISK: Increase surge monitoring, review staffing/bed capacity plans, and coordinate regionally for potential load balancing." ++
            (" Potential lower-risk neighbor: " ++ r.neighbor ++ ".") ∧
        modMsg r.neighbor =
          "MODERATE: Monitor closely and prepare contingency plans." ++
            (" Nearby alternative option: " ++ r.neighbor ++ "."))
    ∧ lowMsg = "LOW: Normal monitoring." := by
  obtain ⟨hd1, hd2, hd3⟩ := msgs_distinct r.neighbor r.neighbor
  refine ⟨?_, ?_, ?_, ?_, rfl⟩
  · unfold recommend_action
    by_cases hH : r.risk = 1 ∨ (85 ≤ r.icu ∧ 85 ≤ r.inp)
    · simp [hH]
    · by_cases hM : 80 ≤ r.icu ∨ 85 ≤ r.inp ∨ 12 / 100 ≤ r.proba
      · simp [hH, hM, hd1.symm]
      · simp [hH, hM, (msgs_distinct r.neighbor r.neighbor).2.1.symm]
  · unfold recommend_action
    by_cases hH : r.risk = 1 ∨ (85 ≤ r.icu ∧ 85 ≤ r.inp)
    · simp [hH, hd1]
    · by_cases hM : 80 ≤ r.icu ∨ 85 ≤ r.inp ∨ 12 / 100 ≤ r.proba
      · simp [hH, hM]
      · simp [hH, hM, hd3.symm]
  · unfold recommend_action
    by_cases hH : r.risk = 1 ∨ (85 ≤ r.icu ∧ 85 ≤ r.inp)
    · simp [hH, hd2]
    · by_cases hM : 80 ≤ r.icu ∨ 85 ≤ r.inp ∨ 12 / 100 ≤ r.proba
      · simp [hH, hM, hd3]
      · simp [hH, hM]
  · intro hn
    unfold highMsg modMsg
    rw [if_neg hn, if_neg hn]
    exact ⟨rfl, rfl⟩

/-- Witness for C4: the spec's example row (risk 1, ICU 90, inpatient 90,
probability 0.5, neighbor TX) lands in the HIGH tier. -/
theorem spec_C4_witness :
    recommend_action ⟨90, 90, 1, 1 / 2, "TX"⟩ = highMsg "TX" :=
  (spec_C4 ⟨90, 90, 1, 1 / 2, "TX"⟩).1.mpr (Or.inl rfl)

/-! ### C3 / C10 : neighbor suggestion -/

/-- Python's lexicographic order on rational triples, as a proposition. -/
def tripLeP (a b : ℚ × ℚ × ℚ) : Prop :=
  a.1 < b.1 ∨ (a.1 = b.1 ∧ (a.2.1 < b.2.1 ∨ (a.2.1 = b.2.1 ∧ a.2.2 ≤ b.2.2)))

lemma tripLe_iff {a b : ℚ × ℚ × ℚ} : tripLe a b = true ↔ tripLeP a b := by
  unfold tripLe tripLeP
  simp [Bool.or_eq_true, Bool.and_eq_true, decide_eq_true_eq, beq_iff_eq]

lemma tripLeP_total (a b : ℚ × ℚ × ℚ) : tripLeP a b ∨ tripLeP b a := by
  unfold tripLeP
  rcases lt_trichotomy a.1 b.1 with h | h | h
  · exact Or.inl (Or.inl h)
  · rcases lt_trichotomy a.2.1 b.2.1 with h2 | h2 | h2
    · exact Or.inl (Or.inr ⟨h, Or.inl h2⟩)
    · rcases le_total a.2.2 b.2.2 with h3 | h3
      · exact Or.inl (Or.inr ⟨h, Or.inr ⟨h2, h3⟩⟩)
      · exact Or.inr (Or.inr ⟨h.symm, Or.inr ⟨h2.symm, h3⟩⟩)
    · exact Or.inr (Or.inr ⟨h.symm, Or.inl h2⟩)
  · exact Or.inr (Or.inl h)

lemma tripLeP_trans {a b c : ℚ × ℚ × ℚ} (h1 : tripLeP a b) (h2 : tripLeP b c) :
    tripLeP a c := by
  unfold tripLeP at h1 h2 ⊢
  rcases h1 with h1 | ⟨e1, h1⟩
  · rcases h2 with h2 | ⟨e2, h2⟩
    · exact Or.inl (h1.trans h2)
    · exact Or.inl (lt_of_lt_of_le h1 (le_of_eq e2))
  · rcases h2 with h2 | ⟨e2, h2⟩
    · exact Or.inl (lt_of_le_of_lt (le_of_eq e1) h2)
    · refine Or.inr ⟨e1.trans e2, ?_⟩
      rcases h1 with h1 | ⟨f1, h1⟩
      · rcases h2 with h2 | ⟨f2, h2⟩
        · exact Or.inl (h1.trans h2)
        · exact Or.inl (lt_of_lt_of_le h1 (le_of_eq f2))
      · rcases h2 with h2 | ⟨f2, h2⟩
        · exact Or.inl (lt_of_le_of_lt (le_of_eq f1) h2)
        · exact Or.inr ⟨f1.trans f2, h1.trans h2⟩

lemma candLe_trans : ∀ a b c : Candidate, candLe a b → candLe b c → candLe a c := by
  intro a b c h1 h2
  unfold candLe at h1 h2 ⊢
  rw [tripLe_iff] at h1 h2 ⊢
  exact tripLeP_trans h1 h2

lemma candLe_total : ∀ a b : Candidate, candLe a b || candLe b a := by
  intro a b
  unfold candLe
  rcases tripLeP_total (candKey a) (candKey b) with h | h
  · simp [tripLe_iff.mpr h]
  · simp [tripLe_iff.mpr h]

/-- The head of the stably sorted candidate list is a member of the list and
minimizes the key. -/
lemma mergeSort_head_min {l rest : List Candidate} {c : Candidate}
    (h : l.mergeSort candLe = c :: rest) :
    c ∈ l ∧ ∀ x ∈ l, candLe c x := by
  have hperm : (c :: rest).Perm l := h ▸ List.mergeSort_perm l candLe
  have hsorted := List.sorted_mergeSort candLe_trans candLe_total l
  rw [h] at hsorted
  refine ⟨hperm.subset (List.mem_cons_self c rest), ?_⟩
  intro x hx
  rcases List.mem_cons.mp (hperm.symm.subset hx) with rfl | hxr
  · have := candLe_total x x
    simpa using this
  · exact List.rel_of_pairwise_cons hsorted hxr

/-- Stability: no element occurring before (any occurrence of) the sorted head
in a duplicate-free list compares less-or-equal to the head. -/
lemma mergeSort_head_first {l rest : List Candidate} {c : Candidate}
    (hnd : l.Nodup) (h : l.mergeSort candLe = c :: rest) :
    ∀ x, x ≠ c → candLe x c → ¬ List.Sublist [x, c] l := by
  intro x hx hle hsub
  have hpair := List.pair_sublist_mergeSort candLe_trans candLe_total hle hsub
  rw [h] at hpair
  have hndh : (c :: rest).Nodup := by
    rw [← h]
    exact (List.mergeSort_perm l candLe).nodup_iff.mpr hnd
  have hcnotin : c ∉ rest := (List.nodup_cons.mp hndh).1
  rcases List.sublist_cons_iff.mp hpair with hcase | ⟨r, hr, hrs⟩
  · exact hcnotin (hcase.subset (by simp))
  · exact hx (by injection hr)

/-- Every adjacency list of the fixed neighbor map is duplicate-free. -/
lemma neighbors_lists_nodup : ∀ p ∈ NEIGHBORS, p.2.Nodup := by decide

/-- The candidate list, unfolded at a known adjacency list. -/
lemma candidatesFor_eq {st : String} {nbs : List String} (tbl : List PredRow)
    (h : neighborsOf st = some nbs) :
    candidatesFor st tbl =
      nbs.filterMap fun nb =>
        (lookupRow tbl nb).map fun r => Candidate.mk nb r.proba r.icu r.inp := by
  unfold candidatesFor
  rw [h]
  rfl

/-- `suggest_neighbor`, unfolded at a known adjacency list: the head of the
stably sorted candidate list, or the empty string when there is none. -/
lemma suggest_neighbor_eq_of_some {st : String} {nbs : List String}
    (tbl : List PredRow) (hno : neighborsOf st = some nbs) :
    suggest_neighbor st tbl =
      match (candidatesFor st tbl).mergeSort candLe with
      | [] => ""
      | best :: _ => best.name := by
  unfold suggest_neighbor
  rw [hno]
  dsimp only
  rw [← candidatesFor_eq tbl hno]

/-- The adjacency list of any state found in the neighbor map is duplicate-free. -/
lemma neighborsOf_nodup {st : String} {nbs : List String}
    (h : neighborsOf st = some nbs) : nbs.Nodup := by
  unfold neighborsOf at h
  rcases Option.map_eq_some'.mp h with ⟨p, hfind, hp⟩
  exact hp ▸ neighbors_lists_nodup p (List.mem_of_find?_eq_some hfind)

/-- Candidates carry distinct names, hence the candidate list is duplicate-free. -/
lemma candidatesFor_nodup (st : String) (tbl : List PredRow) :
    (candidatesFor st tbl).Nodup := by
  unfold candidatesFor
  cases hno : neighborsOf st with
  | none => simp
  | some nbs =>
    dsimp only [Option.getD_some]
    refine List.Nodup.filterMap ?_ (neighborsOf_nodup hno)
    intro a a' b hb hb'
    rcases Option.map_eq_some'.mp hb with ⟨r, _, hr⟩
    rcases Option.map_eq_some'.mp hb' with ⟨r', _, hr'⟩
    have h1 : b.name = a := by rw [← hr]
    have h2 : b.name = a' := by rw [← hr']
    exact h1 ▸ h2

/-- A member of the candidate list names a neighbor of the state that is
present in the prediction table. -/
lemma candidate_mem_spec {st : String} {nbs : List String} {tbl : List PredRow}
    {c : Candidate} (hno : neighborsOf st = some nbs)
    (hc : c ∈ candidatesFor st tbl) :
    c.name ∈ nbs ∧ ∃ r ∈ tbl, r.state = c.name := by
  rw [candidatesFor_eq tbl hno] at hc
  rcases List.mem_filterMap.mp hc with ⟨nb, hnb, hf⟩
  rcases Option.map_eq_some'.mp hf with ⟨r, hr, hrc⟩
  have hname : c.name = nb := by rw [← hrc]
  refine ⟨hname ▸ hnb, r, List.mem_of_find?_eq_some hr, ?_⟩
  have := List.find?_some hr
  rw [hname]
  exact eq_of_beq this

/-- C3: `suggest_neighbor` returns the empty string when the state is not in
the adjacency map or none of its neighbors is present in the table (for Alaska
and Hawaii in particular, whatever the table is); otherwise it returns a
candidate neighbor minimizing (proba, icu, inpatient) lexicographically over
all candidate neighbors. -/
theorem spec_C3 (st : String) (tbl : List PredRow) :
    (neighborsOf st = none → suggest_neighbor st tbl = "")
    ∧ (∀ nbs, neighborsOf st = some nbs → (∀ nb ∈ nbs, lookupRow tbl nb = none) →
        suggest_neighbor st tbl = "")
    ∧ (candidatesFor st tbl ≠ [] →
        ∃ c ∈ candidatesFor st tbl,
          suggest_neighbor st tbl = c.name ∧
            ∀ d ∈ candidatesFor st tbl, tripLeP (candKey c) (candKey d))
    ∧ suggest_neighbor "AK" tbl = "" ∧ suggest_neighbor "HI" tbl = "" := by
  refine ⟨?_, ?_, ?_, ?_, ?_⟩
  · intro h
    unfold suggest_neighbor
    rw [h]
  · intro nbs hno habs
    rw [suggest_neighbor_eq_of_some tbl hno]
    have hemp : candidatesFor st tbl = [] := by
      rw [candidatesFor_eq tbl hno, List.filterMap_eq_nil_iff]
      intro nb hnb
      rw [habs nb hnb]
      rfl
    rw [hemp, List.mergeSort_nil]
  · intro hne
    cases hno : neighborsOf st with
    | none =>
      exfalso
      apply hne
      unfold candidatesFor
      rw [hno]
      rfl
    | some nbs =>
      cases hms : (candidatesFor st tbl).mergeSort candLe with
      | nil =>
        exfalso
        apply hne
        have := congrArg List.length hms
        rw [List.length_mergeSort] at this
        exact List.eq_nil_of_length_eq_zero this
      | cons c rest =>
        obtain ⟨hcmem, hmin⟩ := mergeSort_head_min hms
        refine ⟨c, hcmem, ?_, ?_⟩
        · rw [suggest_neighbor_eq_of_some tbl hno, hms]
        · intro d hd
          have := hmin d hd
          unfold candLe at this
          exact tripLe_iff.mp this
  · have h0 : neighborsOf "AK" = some [] := by decide
    rw [suggest_neighbor_eq_of_some tbl h0]
    have hemp : candidatesFor "AK" tbl = [] := by
      rw [candidatesFor_eq tbl h0]
      rfl
    rw [hemp, List.mergeSort_nil]
  · have h0 : neighborsOf "HI" = some [] := by decide
    rw [suggest_neighbor_eq_of_some tbl h0]
    have hemp : candidatesFor "HI" tbl = [] := by
      rw [candidatesFor_eq tbl h0]
      rfl
    rw [hemp, List.mergeSort_nil]

/-- Witness for C3: Alaska yields no suggestion, and a state none of whose
neighbors is present in the (empty) table yields no suggestion. -/
theorem spec_C3_witness :
    suggest_neighbor "AK" [] = "" ∧ suggest_neighbor "AL" [] = "" :=
  ⟨(spec_C3 "AK" []).2.2.2.1,
    (spec_C3 "AL" []).2.1 ["FL", "GA", "MS", "TN"] (by decide) (by decide)⟩

/-- C10: a non-empty suggestion names a neighbor of the state (in its fixed
adjacency list) that is present in the prediction table; it minimizes the
(proba, icu, inpatient) key over all candidates; and every candidate listed
before it in adjacency order compares strictly greater, so among tied minima
the suggestion is the earliest in adjacency-list order (collection preserves
adjacency order and the sort is stable). -/
theorem spec_C10 (st : String) (tbl : List PredRow)
    (hne : suggest_neighbor st tbl ≠ "") :
    ∃ nbs c l₁ l₂,
      neighborsOf st = some nbs ∧
      suggest_neighbor st tbl = c.name ∧
      c.name ∈ nbs ∧
      (∃ r ∈ tbl, r.state = c.name) ∧
      candidatesFor st tbl = l₁ ++ c :: l₂ ∧
      (∀ d ∈ candidatesFor st tbl, tripLeP (candKey c) (candKey d)) ∧
      (∀ x ∈ l₁, ¬ tripLeP (candKey x) (candKey c)) := by
  cases hno : neighborsOf st with
  | none =>
    exfalso
    apply hne
    unfold suggest_neighbor
    rw [hno]
  | some nbs =>
    cases hms : (candidatesFor st tbl).mergeSort candLe with
    | nil =>
      exfalso
      apply hne
      rw [suggest_neighbor_eq_of_some tbl hno, hms]
    | cons c rest =>
      obtain ⟨hcmem, hmin⟩ := mergeSort_head_min hms
      obtain ⟨hname, hpresent⟩ := candidate_mem_spec hno hcmem
      obtain ⟨l₁, l₂, happ⟩ := List.append_of_mem hcmem
      have hnd := candidatesFor_nodup st tbl
      refine ⟨nbs, c, l₁, l₂, rfl, ?_, hname, hpresent, happ, ?_, ?_⟩
      · rw [suggest_neighbor_eq_of_some tbl hno, hms]
      · intro d hd
        have := hmin d hd
        unfold candLe at this
        exact tripLe_iff.mp this
      · intro x hx hlex
        have hxne : x ≠ c := by
          intro e
          have hdisj := List.disjoint_of_nodup_append (happ ▸ hnd)
          exact hdisj hx (e ▸ List.mem_cons_self c l₂)
        have hxle : candLe x c := by
          unfold candLe
          exact tripLe_iff.mpr hlex
        have hsub : List.Sublist [x, c] (candidatesFor st tbl) := by
          rw [happ]
          have h1 : List.Sublist [x] l₁ := List.singleton_sublist.mpr hx
          have h2 : List.Sublist [c] (c :: l₂) :=
            (List.nil_sublist l₂).cons₂ c
          exact h1.append h2
        exact mergeSort_head_first hnd hms x hxne hxle hsub

/-- Witness for C10: Florida's two neighbors tie on the whole key; the
suggestion is Alabama, the earlier one in Florida's adjacency list. -/
theorem spec_C10_witness :
    ∃ nbs c l₁ l₂,
      neighborsOf "FL" = some nbs ∧
      suggest_neighbor "FL"
          [⟨"AL", 1 / 10, 50, 60⟩, ⟨"GA", 1 / 10, 50, 60⟩] = c.name ∧
      c.name ∈ nbs ∧
      (∃ r ∈ [PredRow.mk "AL" (1 / 10) 50 60, PredRow.mk "GA" (1 / 10) 50 60],
        r.state = c.name) ∧
      candidatesFor "FL"
          [⟨"AL", 1 / 10, 50, 60⟩, ⟨"GA", 1 / 10, 50, 60⟩] = l₁ ++ c :: l₂ ∧
      (∀ d ∈ candidatesFor "FL"
          [⟨"AL", 1 / 10, 50, 60⟩, ⟨"GA", 1 / 10, 50, 60⟩],
        tripLeP (candKey c) (candKey d)) ∧
      (∀ x ∈ l₁, ¬ tripLeP (candKey x) (candKey c)) :=
  spec_C10 "FL" [⟨"AL", 1 / 10, 50, 60⟩, ⟨"GA", 1 / 10, 50, 60⟩]
    (by with_unfolding_all decide)

/-! ### C2 / C6 : lag and rolling features of make_model_ready -/

lemma withFeatures_length (seq : List PrepRow) :
    (withFeatures seq).length = seq.length := by
  simp [withFeatures]

lemma mem_withFeatures_iff {seq : List PrepRow} {m : MRRow} :
    m ∈ withFeatures seq ↔
      ∃ i, ∃ h : i < seq.length, m = featAt seq i (seq.get ⟨i, h⟩) := by
  rw [List.mem_iff_getElem]
  constructor
  · rintro ⟨i, hi, hm⟩
    have hi2 : i < seq.length := by
      have := hi
      rwa [withFeatures_length] at this
    refine ⟨i, hi2, ?_⟩
    rw [← hm]
    simp [withFeatures]
  · rintro ⟨i, hi, hm⟩
    have hi2 : i < (withFeatures seq).length := by rwa [withFeatures_length]
    refine ⟨i, hi2, ?_⟩
    rw [hm]
    simp [withFeatures]

lemma state_mem_statesOf {rows : List PrepRow} {r : PrepRow} (hr : r ∈ rows) :
    r.state ∈ statesOf rows := by
  unfold statesOf
  exact List.mem_dedup.mpr (List.mem_map_of_mem _ hr)

/-- Membership in `make_model_ready`: a feature row of some state's
chronological sequence whose four derived occupancy features are present. -/
lemma mem_mmr_iff {rows : List PrepRow} {m : MRRow} :
    m ∈ make_model_ready rows ↔
      derivedOk m ∧ ∃ st ∈ statesOf (rows.mergeSort rowLe),
        m ∈ withFeatures (stateSeq rows st) := by
  unfold make_model_ready stateSeq
  rw [List.mem_filter]
  simp only [List.mem_flatten, List.mem_map]
  constructor
  · rintro ⟨⟨chunk, ⟨st, hst, rfl⟩, hm⟩, hd⟩
    exact ⟨hd, st, hst, hm⟩
  · rintro ⟨hd, st, hst, hm⟩
    exact ⟨⟨_, ⟨st, hst, rfl⟩, hm⟩, hd⟩

/-- Every model-ready row is the feature row built at some position of its own
state's chronological sequence, with all four derived features present. -/
lemma mem_mmr_elim {rows : List PrepRow} {m : MRRow}
    (hm : m ∈ make_model_ready rows) :
    derivedOk m ∧
      ∃ i, ∃ h : i < (stateSeq rows m.base.state).length,
        (stateSeq rows m.base.state).get ⟨i, h⟩ = m.base ∧
        m = featAt (stateSeq rows m.base.state) i
          ((stateSeq rows m.base.state).get ⟨i, h⟩) := by
  obtain ⟨hd, st, hst, hmem⟩ := mem_mmr_iff.mp hm
  obtain ⟨i, hi, hfeat⟩ := mem_withFeatures_iff.mp hmem
  have hbase : m.base = (stateSeq rows st).get ⟨i, hi⟩ := by
    conv_lhs => rw [hfeat]
    rfl
  have hstate : m.base.state = st := by
    have hmemseq := List.get_mem (stateSeq rows st) i hi
    unfold stateSeq at hmemseq
    have := (List.mem_filter.mp hmemseq).2
    rw [hbase]
    exact eq_of_beq this
  refine ⟨hd, i, ?_⟩
  rw [hstate]
  exact ⟨hi, hbase.symm, hfeat⟩

/-- Conversely, a feature row whose four derived features are present is in
the model-ready output. -/
lemma mem_mmr_intro {rows : List PrepRow} {st : String} {i : Nat}
    (h : i < (stateSeq rows st).length)
    (hd : derivedOk (featAt (stateSeq rows st) i ((stateSeq rows st).get ⟨i, h⟩))) :
    featAt (stateSeq rows st) i ((stateSeq rows st).get ⟨i, h⟩) ∈
      make_model_ready rows := by
  refine mem_mmr_iff.mpr ⟨hd, st, ?_, mem_withFeatures_iff.mpr ⟨i, h, rfl⟩⟩
  have hmemseq := List.get_mem (stateSeq rows st) i h
  unfold stateSeq at hmemseq
  rcases List.mem_filter.mp hmemseq with ⟨hmem, hbeq⟩
  have := eq_of_beq hbeq
  rw [← this]
  exact state_mem_statesOf hmem

/-- A present lag-1 feature forces a predecessor position and equals the
previous row's value. -/
lemma lagAt_isSome_spec {seq : List PrepRow} {i : Nat} {f : PrepRow → Cell}
    (h : (lagAt seq i f).isSome) :
    1 ≤ i ∧ lagAt seq i f = (seq[i - 1]?).bind f := by
  cases i with
  | zero => exact absurd h (by simp [lagAt])
  | succ j => exact ⟨by omega, rfl⟩

/-- A present rolling mean forces position at least 3 and equals the mean of
the four window values, all of which are present. -/
lemma roll4At_isSome_spec {seq : List PrepRow} {i : Nat} {f : PrepRow → Cell}
    (h : (roll4At seq i f).isSome) :
    3 ≤ i ∧ ∃ q0 q1 q2 q3 : ℚ,
      (seq[i - 3]?).bind f = some q0 ∧ (seq[i - 2]?).bind f = some q1 ∧
      (seq[i - 1]?).bind f = some q2 ∧ (seq[i]?).bind f = some q3 ∧
      roll4At seq i f = some ((q0 + q1 + q2 + q3) / 4) := by
  by_cases h3 : 3 ≤ i
  · refine ⟨h3, ?_⟩
    have hwin : window4 seq i f =
        [(seq[i - 3]?).bind f, (seq[i - 2]?).bind f,
         (seq[i - 1]?).bind f, (seq[i]?).bind f] := by
      unfold window4
      have e0 : i - 3 + 0 = i - 3 := by omega
      have e1 : i - 3 + 1 = i - 2 := by omega
      have e2 : i - 3 + 2 = i - 1 := by omega
      have e3 : i - 3 + 3 = i := by omega
      have hr : List.range 4 = [0, 1, 2, 3] := rfl
      rw [hr]
      simp only [List.map_cons, List.map_nil, e0, e1, e2, e3]
    unfold roll4At at h ⊢
    rw [if_pos h3] at h ⊢
    rw [hwin] at h ⊢
    by_cases hall : (([(seq[i - 3]?).bind f, (seq[i - 2]?).bind f,
        (seq[i - 1]?).bind f, (seq[i]?).bind f]).all Option.isSome) = true
    · have hl := hall
      simp only [List.all_cons, List.all_nil, Bool.and_true, Bool.and_eq_true] at hl
      obtain ⟨h0, h1, h2v, h3v⟩ := hl
      rcases Option.isSome_iff_exists.mp h0 with ⟨q0, hq0⟩
      rcases Option.isSome_iff_exists.mp h1 with ⟨q1, hq1⟩
      rcases Option.isSome_iff_exists.mp h2v with ⟨q2, hq2⟩
      rcases Option.isSome_iff_exists.mp h3v with ⟨q3, hq3⟩
      refine ⟨q0, q1, q2, q3, hq0, hq1, hq2, hq3, ?_⟩
      rw [if_pos hall, hq0, hq1, hq2, hq3]
      have hfm : List.filterMap id [some q0, some q1, some q2, some q3] =
          [q0, q1, q2, q3] := rfl
      rw [hfm]
      have hs : List.sum [q0, q1, q2, q3] = q0 + q1 + q2 + q3 := by
        simp [List.sum_cons]
        ring
      rw [hs]
    · rw [if_neg hall] at h
      exact absurd h (by simp)
  · unfold roll4At at h
    rw [if_neg h3] at h
    exact absurd h (by simp)

/-- C2: every model-ready row sits at a position i of its state's
chronological sequence with i at least 1 and at least 3; its lag-1 features
equal the occupancy values of the previous row of that sequence; its rolling
means are the arithmetic means of the four occupancy values at positions
i-3..i, all of which exist; and a feature row belongs to the output exactly
when all four derived values are present. -/
theorem spec_C2 (rows : List PrepRow) :
    (∀ m ∈ make_model_ready rows,
      ∃ i, ∃ h : i < (stateSeq rows m.base.state).length,
        (stateSeq rows m.base.state).get ⟨i, h⟩ = m.base ∧ 1 ≤ i ∧ 3 ≤ i ∧
        m.icuLast =
          ((stateSeq rows m.base.state)[i - 1]?).bind (fun r => r.vals.pctIcuOcc) ∧
        m.inpLast =
          ((stateSeq rows m.base.state)[i - 1]?).bind (fun r => r.vals.pctInpOcc) ∧
        m.icuLast.isSome ∧ m.inpLast.isSome ∧
        (∃ q0 q1 q2 q3 : ℚ,
          ((stateSeq rows m.base.state)[i - 3]?).bind (fun r => r.vals.pctIcuOcc) = some q0 ∧
          ((stateSeq rows m.base.state)[i - 2]?).bind (fun r => r.vals.pctIcuOcc) = some q1 ∧
          ((stateSeq rows m.base.state)[i - 1]?).bind (fun r => r.vals.pctIcuOcc) = some q2 ∧
          ((stateSeq rows m.base.state)[i]?).bind (fun r => r.vals.pctIcuOcc) = some q3 ∧
          m.icu4wAvg = some ((q0 + q1 + q2 + q3) / 4)) ∧
        (∃ q0 q1 q2 q3 : ℚ,
          ((stateSeq rows m.base.state)[i - 3]?).bind (fun r => r.vals.pctInpOcc) = some q0 ∧
          ((stateSeq rows m.base.state)[i - 2]?).bind (fun r => r.vals.pctInpOcc) = some q1 ∧
          ((stateSeq rows m.base.state)[i - 1]?).bind (fun r => r.vals.pctInpOcc) = some q2 ∧
          ((stateSeq rows m.base.state)[i]?).bind (fun r => r.vals.pctInpOcc) = some q3 ∧
          m.inp4wAvg = some ((q0 + q1 + q2 + q3) / 4)))
    ∧ (∀ (st : String) (i : Nat) (h : i < (stateSeq rows st).length),
        featAt (stateSeq rows st) i ((stateSeq rows st).get ⟨i, h⟩) ∈
            make_model_ready rows ↔
          derivedOk (featAt (stateSeq rows st) i ((stateSeq rows st).get ⟨i, h⟩))) := by
  constructor
  · intro m hm
    obtain ⟨hd, i, h, hbase, hfeat⟩ := mem_mmr_elim hm
    unfold derivedOk at hd
    simp only [Bool.and_eq_true] at hd
    obtain ⟨⟨⟨hdicu, hdinp⟩, hdicu4⟩, hdinp4⟩ := hd
    have hicuL : m.icuLast = lagAt (stateSeq rows m.base.state) i (fun x => x.vals.pctIcuOcc) := by
      conv_lhs => rw [hfeat]
      rfl
    have hinpL : m.inpLast = lagAt (stateSeq rows m.base.state) i (fun x => x.vals.pctInpOcc) := by
      conv_lhs => rw [hfeat]
      rfl
    have hicu4 : m.icu4wAvg = roll4At (stateSeq rows m.base.state) i (fun x => x.vals.pctIcuOcc) := by
      conv_lhs => rw [hfeat]
      rfl
    have hinp4 : m.inp4wAvg = roll4At (stateSeq rows m.base.state) i (fun x => x.vals.pctInpOcc) := by
      conv_lhs => rw [hfeat]
      rfl
    obtain ⟨h1, hlag1⟩ := lagAt_isSome_spec (hicuL ▸ hdicu)
    obtain ⟨_, hlag2⟩ := lagAt_isSome_spec (hinpL ▸ hdinp)
    obtain ⟨h3, hroll1⟩ := roll4At_isSome_spec (hicu4 ▸ hdicu4)
    obtain ⟨_, hroll2⟩ := roll4At_isSome_spec (hinp4 ▸ hdinp4)
    refine ⟨i, h, hbase, h1, h3, ?_, ?_, hdicu, hdinp, ?_, ?_⟩
    · rw [hicuL, hlag1]
    · rw [hinpL, hlag2]
    · obtain ⟨q0, q1, q2, q3, e0, e1, e2, e3, ev⟩ := hroll1
      exact ⟨q0, q1, q2, q3, e0, e1, e2, e3, by rw [hicu4, ev]⟩
    · obtain ⟨q0, q1, q2, q3, e0, e1, e2, e3, ev⟩ := hroll2
      exact ⟨q0, q1, q2, q3, e0, e1, e2, e3, by rw [hinp4, ev]⟩
  · intro st i h
    constructor
    · intro hmem
      exact (mem_mmr_elim hmem).1
    · intro hd
      exact mem_mmr_intro h hd

/-- Concrete numeric cells for test tables: all counts present and equal to 1,
reporting percentages 50 and 60, occupancy percentages as given. -/
def testVals (icu inp : ℚ) : Vals :=
  ⟨some 1, some 1, some 1, some 1, some inp, some icu,
   some 1, some 1, some 1, some 1, some 1, some 1,
   some 1, some 1, some 50, some 60⟩

/-- A concrete state-week row for test tables. -/
def testRow (st : String) (w : Int) (icu inp : ℚ) : PrepRow :=
  ⟨st, w, testVals icu inp⟩

/-- Witness for C2: in a four-week single-state table, the feature row at
position 3 has all four derived features and is in the model-ready output. -/
theorem spec_C2_witness :
    featAt
        (stateSeq [testRow "AL" 1 10 10, testRow "AL" 2 20 20,
          testRow "AL" 3 30 30, testRow "AL" 4 40 40] "AL") 3
        ((stateSeq [testRow "AL" 1 10 10, testRow "AL" 2 20 20,
          testRow "AL" 3 30 30, testRow "AL" 4 40 40] "AL").get
          ⟨3, by with_unfolding_all decide⟩) ∈
      make_model_ready [testRow "AL" 1 10 10, testRow "AL" 2 20 20,
        testRow "AL" 3 30 30, testRow "AL" 4 40 40] :=
  ((spec_C2 [testRow "AL" 1 10 10, testRow "AL" 2 20 20,
      testRow "AL" 3 30 30, testRow "AL" 4 40 40]).2 "AL" 3
    (by with_unfolding_all decide)).mpr (by with_unfolding_all decide)

/-- C6 counterexample: in a six-week single-state table with complete data,
the model-ready output contains weeks 4, 5 and 6 — week 4 (which has only
three prior observations) is present, contradicting both "at least 4 prior
consecutive observations" and "only weeks 5 and 6 appear". -/
theorem spec_C6_counterexample :
    (make_model_ready [testRow "AL" 1 10 10, testRow "AL" 2 20 20,
        testRow "AL" 3 30 30, testRow "AL" 4 40 40,
        testRow "AL" 5 50 50, testRow "AL" 6 60 60]).map
        (fun m => m.base.week) = [4, 5, 6] ∧
    ([4, 5, 6] : List Int) ≠ [5, 6] := by
  with_unfolding_all decide

/-- C6 as amended: every model-ready row sits at position at least 3 of its
state's chronological sequence, i.e. has at least 3 prior consecutive
observations for that state (so in a 6-week dataset weeks 4, 5 and 6 appear). -/
theorem spec_C6 (rows : List PrepRow) :
    ∀ m ∈ make_model_ready rows,
      ∃ i, ∃ h : i < (stateSeq rows m.base.state).length,
        (stateSeq rows m.base.state).get ⟨i, h⟩ = m.base ∧ 3 ≤ i := by
  intro m hm
  obtain ⟨hd, i, h, hbase, hfeat⟩ := mem_mmr_elim hm
  unfold derivedOk at hd
  simp only [Bool.and_eq_true] at hd
  have hicu4 : m.icu4wAvg =
      roll4At (stateSeq rows m.base.state) i (fun x => x.vals.pctIcuOcc) := by
    conv_lhs => rw [hfeat]
    rfl
  obtain ⟨h3, _⟩ := roll4At_isSome_spec (hicu4 ▸ hd.1.2)
  exact ⟨i, h, hbase, h3⟩

/-- Witness for C6 (amended) at the six-week table: the week-4 feature row is
in the output and sits at position 3 of the state's sequence. -/
theorem spec_C6_witness :
    ∃ i, ∃ h : i <
        (stateSeq [testRow "AL" 1 10 10, testRow "AL" 2 20 20,
          testRow "AL" 3 30 30, testRow "AL" 4 40 40,
          testRow "AL" 5 50 50, testRow "AL" 6 60 60]
          (MRRow.mk (testRow "AL" 4 40 40) (some 30) (some 30) (some 1) (some 1)
            (some 1) (some 1) (some 1) (some 1) (some 25) (some 25)).base.state).length,
      (stateSeq [testRow "AL" 1 10 10, testRow "AL" 2 20 20,
          testRow "AL" 3 30 30, testRow "AL" 4 40 40,
          testRow "AL" 5 50 50, testRow "AL" 6 60 60]
          (MRRow.mk (testRow "AL" 4 40 40) (some 30) (some 30) (some 1) (some 1)
            (some 1) (some 1) (some 1) (some 1) (some 25) (some 25)).base.state).get
          ⟨i, h⟩ =
        (MRRow.mk (testRow "AL" 4 40 40) (some 30) (some 30) (some 1) (some 1)
          (some 1) (some 1) (some 1) (some 1) (some 25) (some 25)).base ∧ 3 ≤ i :=
  spec_C6 [testRow "AL" 1 10 10, testRow "AL" 2 20 20,
      testRow "AL" 3 30 30, testRow "AL" 4 40 40,
      testRow "AL" 5 50 50, testRow "AL" 6 60 60]
    (MRRow.mk (testRow "AL" 4 40 40) (some 30) (some 30) (some 1) (some 1)
      (some 1) (some 1) (some 1) (some 1) (some 25) (some 25))
    (by with_unfolding_all decide)

/-! ### C7 : training targets, critical-stress label, time-based split -/

/-- Every target row built over one state's sequence carries the forward
shifts of that sequence and the label computed from its own shifted values. -/
lemma mem_targetsOfSeq_spec {seq : List MRRow} {r : TargetRow}
    (h : r ∈ targetsOfSeq seq) :
    ∃ i, ∃ hi : i < seq.length,
      r.row = seq.get ⟨i, hi⟩ ∧
      r.icuNext = (seq[i + 1]?).bind (fun x => x.base.vals.pctIcuOcc) ∧
      r.inpNext = (seq[i + 1]?).bind (fun x => x.base.vals.pctInpOcc) ∧
      r.diseaseNext = (seq[i + 1]?).bind diseaseBurden ∧
      r.label = if cellGe r.icuNext 85 || cellGe r.inpNext 85 then 1 else 0 := by
  unfold targetsOfSeq at h
  rw [List.mem_iff_getElem] at h
  obtain ⟨i, hi, heq⟩ := h
  have hi2 : i < seq.length := by
    have := hi
    rwa [List.length_mapIdx] at this
  refine ⟨i, hi2, ?_, ?_, ?_, ?_, ?_⟩ <;>
    rw [← heq] <;> simp [List.getElem_mapIdx]

/-- Positional version: the target row at index `i` reads the row at `i` and
the forward values at `i + 1`. -/
lemma targetsOfSeq_getElem? {seq : List MRRow} {i : Nat} {r : TargetRow}
    (h : (targetsOfSeq seq)[i]? = some r) :
    seq[i]? = some r.row ∧
      r.icuNext = (seq[i + 1]?).bind (fun x => x.base.vals.pctIcuOcc) ∧
      r.inpNext = (seq[i + 1]?).bind (fun x => x.base.vals.pctInpOcc) ∧
      r.diseaseNext = (seq[i + 1]?).bind diseaseBurden := by
  unfold targetsOfSeq at h
  rw [List.getElem?_mapIdx] at h
  cases hseq : seq[i]? with
  | none => rw [hseq] at h; exact absurd h (by simp)
  | some x =>
    rw [hseq] at h
    rw [Option.map_some'] at h
    injection h with h
    refine ⟨by rw [← h], ?_, ?_, ?_⟩ <;> rw [← h]

/-- Splitting a target row off `buildTargets`. -/
lemma mem_buildTargets_elim {rows : List MRRow} {r : TargetRow}
    (h : r ∈ buildTargets rows) :
    ∃ st ∈ mrStatesOf (rows.mergeSort mrLe), r ∈ targetsOfSeq (mrStateSeq rows st) := by
  unfold buildTargets at h
  rw [List.mem_flatMap] at h
  exact h

/-- A filter that holds exactly away from the last position is `dropLast`. -/
lemma filter_eq_dropLast {α : Type} (p : α → Bool) :
    ∀ l : List α,
      (∀ i, ∀ hi : i < l.length, (p (l.get ⟨i, hi⟩) = true ↔ i + 1 < l.length)) →
      l.filter p = l.dropLast
  | [], _ => rfl
  | [a], h => by
    have h0 := h 0 (by simp)
    simp only [List.length_singleton, Nat.lt_irrefl, iff_false] at h0
    simp only [List.get] at h0
    simp [List.filter, Bool.eq_false_iff.mpr (by simpa using h0)]
  | a :: b :: l, h => by
    have h0 : p a = true := by
      have := h 0 (by simp)
      simp at this
      exact this
    have htail := filter_eq_dropLast p (b :: l) (fun i hi => by
      have := h (i + 1) (by simpa using Nat.succ_lt_succ hi)
      simpa using this)
    show List.filter p (a :: b :: l) = a :: (b :: l).dropLast
    rw [List.filter_cons, if_pos h0, htail]

/-- `trainSet`, with its let binding reduced. -/
lemma trainSet_eq (rows : List MRRow) :
    trainSet rows =
      match splitDate (dropTargetNa (buildTargets rows)) with
      | none => []
      | some d => (dropTargetNa (buildTargets rows)).filter
          (fun t => decide (((t.row.base.week : Int) : ℚ) ≤ d)) := rfl

/-- C7: on the rows kept for training, the binary critical-stress label is 1
exactly when the forward-shifted ICU or inpatient percentage is at least 85;
target columns are the per-state forward shifts; when the occupancy and
disease cells of all rows are present, the rows dropped for missing targets
are exactly the last observed week of each state; and the training set is
exactly the (order-preserving) restriction of the kept rows to week-ending
dates at most the 0.8-quantile date. -/
theorem spec_C7 (rows : List MRRow)
    (hcomplete : ∀ m ∈ rows, m.base.vals.pctIcuOcc.isSome ∧
      m.base.vals.pctInpOcc.isSome ∧ m.base.vals.covid.isSome ∧
      m.base.vals.flu.isSome ∧ m.base.vals.rsv.isSome) :
    (∀ r ∈ dropTargetNa (buildTargets rows), ∃ a b : ℚ,
        r.icuNext = some a ∧ r.inpNext = some b ∧
        (r.label = 1 ↔ (85 ≤ a ∨ 85 ≤ b)) ∧ (r.label = 0 ↔ ¬(85 ≤ a ∨ 85 ≤ b)))
    ∧ (∀ (st : String) (i : Nat) (r : TargetRow),
        (targetsOfSeq (mrStateSeq rows st))[i]? = some r →
          ((mrStateSeq rows st)[i]? = some r.row ∧
            r.icuNext = ((mrStateSeq rows st)[i + 1]?).bind
              (fun x => x.base.vals.pctIcuOcc) ∧
            r.inpNext = ((mrStateSeq rows st)[i + 1]?).bind
              (fun x => x.base.vals.pctInpOcc) ∧
            r.diseaseNext = ((mrStateSeq rows st)[i + 1]?).bind diseaseBurden))
    ∧ dropTargetNa (buildTargets rows) =
        (mrStatesOf (rows.mergeSort mrLe)).flatMap
          (fun st => (targetsOfSeq (mrStateSeq rows st)).dropLast)
    ∧ List.Sublist (trainSet rows) (dropTargetNa (buildTargets rows))
    ∧ (∀ r, r ∈ trainSet rows ↔
        ∃ d, splitDate (dropTargetNa (buildTargets rows)) = some d ∧
          r ∈ dropTargetNa (buildTargets rows) ∧
          ((r.row.base.week : Int) : ℚ) ≤ d) := by
  have hsortmem : ∀ m : MRRow, m ∈ rows.mergeSort mrLe → m ∈ rows := by
    intro m hm
    exact (List.mergeSort_perm rows mrLe).subset hm
  refine ⟨?_, ?_, ?_, ?_, ?_⟩
  · intro r hr
    rcases List.mem_filter.mp hr with ⟨hb, hpred⟩
    simp only [Bool.and_eq_true] at hpred
    obtain ⟨⟨hicu, hinp⟩, _⟩ := hpred
    rcases Option.isSome_iff_exists.mp hicu with ⟨a, ha⟩
    rcases Option.isSome_iff_exists.mp hinp with ⟨b, hbv⟩
    obtain ⟨st, _, hseq⟩ := mem_buildTargets_elim hb
    obtain ⟨i, hi, _, _, _, _, hlabel⟩ := mem_targetsOfSeq_spec hseq
    rw [ha, hbv] at hlabel
    refine ⟨a, b, ha, hbv, ?_, ?_⟩
    · by_cases hab : 85 ≤ a ∨ 85 ≤ b
      · rw [hlabel, if_pos ?side]
        · simp [hab]
        case side =>
          rcases hab with h85 | h85 <;> simp [cellGe, h85]
      · rw [hlabel, if_neg ?side2]
        · constructor
          · intro h01
            exact absurd h01 (by norm_num)
          · intro hc
            exact absurd hc hab
        case side2 =>
          push_neg at hab
          simp [cellGe, hab.1, hab.2, not_le.mpr hab.1, not_le.mpr hab.2]
    · by_cases hab : 85 ≤ a ∨ 85 ≤ b
      · rw [hlabel, if_pos ?side3]
        · constructor
          · intro h10
            exact absurd h10 (by norm_num)
          · intro hc
            exact absurd hab hc
        case side3 =>
          rcases hab with h85 | h85 <;> simp [cellGe, h85]
      · rw [hlabel, if_neg ?side4]
        · simp [hab]
        case side4 =>
          push_neg at hab
          simp [cellGe, not_le.mpr hab.1, not_le.mpr hab.2]
  · intro st i r h
    exact targetsOfSeq_getElem? h
  · have hkey : dropTargetNa (buildTargets rows) =
        (mrStatesOf (rows.mergeSort mrLe)).flatMap
          (fun st => dropTargetNa (targetsOfSeq (mrStateSeq rows st))) := by
      unfold dropTargetNa buildTargets mrStateSeq
      rw [List.filter_flatMap]
    rw [hkey]
    apply congrArg (List.flatMap (mrStatesOf (rows.mergeSort mrLe)))
    funext st
    unfold dropTargetNa
    apply filter_eq_dropLast
    intro i hi
    have hlen2 : (targetsOfSeq (mrStateSeq rows st)).length =
        (mrStateSeq rows st).length := by
      unfold targetsOfSeq
      rw [List.length_mapIdx]
    have hget : (targetsOfSeq (mrStateSeq rows st))[i]? =
        some ((targetsOfSeq (mrStateSeq rows st)).get ⟨i, hi⟩) := by
      exact List.getElem?_eq_getElem hi
    obtain ⟨hrow, hicu, hinp, hdis⟩ := targetsOfSeq_getElem? hget
    constructor
    · intro hp
      simp only [Bool.and_eq_true] at hp
      by_contra hge
      rw [hlen2] at hge
      have hnone : (mrStateSeq rows st)[i + 1]? = none := by
        rw [List.getElem?_eq_none_iff]
        omega
      rw [hnone] at hicu
      have hcontra := hp.1.1
      rw [hicu] at hcontra
      simp at hcontra
    · intro hlt
      rw [hlen2] at hlt
      have hsome : ∃ x, (mrStateSeq rows st)[i + 1]? = some x :=
        ⟨_, List.getElem?_eq_getElem hlt⟩
      obtain ⟨x, hx⟩ := hsome
      have hxrows : x ∈ rows := by
        apply hsortmem
        have hxmem : x ∈ mrStateSeq rows st := by
          rw [List.mem_iff_getElem?]
          exact ⟨i + 1, hx⟩
        unfold mrStateSeq at hxmem
        exact (List.mem_filter.mp hxmem).1
      obtain ⟨c1, c2, c3, c4, c5⟩ := hcomplete x hxrows
      rw [hx] at hicu hinp hdis
      simp only [Option.some_bind] at hicu hinp hdis
      have hdb : (diseaseBurden x).isSome := by
        unfold diseaseBurden cellAdd
        rcases Option.isSome_iff_exists.mp c3 with ⟨v3, e3⟩
        rcases Option.isSome_iff_exists.mp c4 with ⟨v4, e4⟩
        rcases Option.isSome_iff_exists.mp c5 with ⟨v5, e5⟩
        rw [e3, e4, e5]
        rfl
      simp only [Bool.and_eq_true]
      exact ⟨⟨by rw [hicu]; exact c1, by rw [hinp]; exact c2⟩, by rw [hdis]; exact hdb⟩
  · rw [trainSet_eq]
    cases splitDate (dropTargetNa (buildTargets rows)) with
    | none => exact List.nil_sublist _
    | some d => exact List.filter_sublist _
  · intro r
    rw [trainSet_eq]
    cases hsd : splitDate (dropTargetNa (buildTargets rows)) with
    | none =>
      simp only [List.not_mem_nil, false_iff]
      rintro ⟨d, hd, _⟩
      exact absurd hd (by simp)
    | some d =>
      rw [List.mem_filter]
      constructor
      · rintro ⟨hmem, hle⟩
        exact ⟨d, rfl, hmem, by simpa using hle⟩
      · rintro ⟨e, he, hmem, hle⟩
        injection he with he
        rw [he]
        exact ⟨hmem, by simpa using hle⟩

/-- Witness for C7 at a two-state, three-week complete table. -/
theorem spec_C7_witness :
    List.Sublist
      (trainSet [⟨testRow "AL" 1 10 10, some 5, some 5, some 1, some 1, some 1,
          some 1, some 1, some 1, some 7, some 7⟩,
        ⟨testRow "AL" 2 90 20, some 10, some 10, some 1, some 1, some 1,
          some 1, some 1, some 1, some 8, some 8⟩,
        ⟨testRow "AL" 3 30 30, some 90, some 20, some 1, some 1, some 1,
          some 1, some 1, some 1, some 9, some 9⟩])
      (dropTargetNa (buildTargets
        [⟨testRow "AL" 1 10 10, some 5, some 5, some 1, some 1, some 1,
          some 1, some 1, some 1, some 7, some 7⟩,
        ⟨testRow "AL" 2 90 20, some 10, some 10, some 1, some 1, some 1,
          some 1, some 1, some 1, some 8, some 8⟩,
        ⟨testRow "AL" 3 30 30, some 90, some 20, some 1, some 1, some 1,
          some 1, some 1, some 1, some 9, some 9⟩])) :=
  (spec_C7 [⟨testRow "AL" 1 10 10, some 5, some 5, some 1, some 1, some 1,
      some 1, some 1, some 1, some 7, some 7⟩,
    ⟨testRow "AL" 2 90 20, some 10, some 10, some 1, some 1, some 1,
      some 1, some 1, some 1, some 8, some 8⟩,
    ⟨testRow "AL" 3 30 30, some 90, some 20, some 1, some 1, some 1,
      some 1, some 1, some 1, some 9, some 9⟩]
    (by with_unfolding_all decide)).2.2.2.1

/-! ### C1 : state-week aggregation -/

lemma cellFill_some {fb c : Cell} (h : c.isSome) : cellFill fb c = c := by
  cases c with
  | none => exact absurd h (by simp)
  | some v => rfl

/-- Unpack `allSome` into the sixteen per-field facts. -/
lemma allSome_fields {v : Vals} (h : allSome v = true) :
    v.nInpBeds.isSome ∧ v.nInpOcc.isSome ∧ v.nIcuBeds.isSome ∧ v.nIcuOcc.isSome ∧
    v.pctInpOcc.isSome ∧ v.pctIcuOcc.isSome ∧
    v.covid.isSome ∧ v.flu.isSome ∧ v.rsv.isSome ∧
    v.covidIcu.isSome ∧ v.fluIcu.isSome ∧ v.rsvIcu.isSome ∧
    v.nRepInp.isSome ∧ v.nRepIcu.isSome ∧ v.pctRepInp.isSome ∧ v.pctRepIcu.isSome := by
  unfold allSome at h
  simp only [Bool.and_eq_true] at h
  obtain ⟨⟨⟨⟨⟨⟨⟨⟨⟨⟨⟨⟨⟨⟨⟨h1, h2⟩, h3⟩, h4⟩, h5⟩, h6⟩, h7⟩, h8⟩, h9⟩,
    h10⟩, h11⟩, h12⟩, h13⟩, h14⟩, h15⟩, h16⟩ := h
  exact ⟨h1, h2, h3, h4, h5, h6, h7, h8, h9, h10, h11, h12, h13, h14, h15, h16⟩

/-- Forward-filling does not change a row whose cells are all present. -/
lemma fillVals_complete (carry : Vals) {v : Vals} (h : allSome v = true) :
    fillVals carry v = v := by
  obtain ⟨h1, h2, h3, h4, h5, h6, h7, h8, h9, h10, h11, h12, h13, h14, h15, h16⟩ :=
    allSome_fields h
  unfold fillVals
  rw [cellFill_some h1, cellFill_some h2, cellFill_some h3, cellFill_some h4,
    cellFill_some h5, cellFill_some h6, cellFill_some h7, cellFill_some h8,
    cellFill_some h9, cellFill_some h10, cellFill_some h11, cellFill_some h12,
    cellFill_some h13, cellFill_some h14, cellFill_some h15, cellFill_some h16]

/-- The key of an aggregated row is its group key. -/
lemma rowKey_aggGroup (rows : List PrepRow) (k : String × Int) :
    rowKey (aggGroup rows k) = k := rfl

/-- The sorted distinct group keys are duplicate-free. -/
lemma sortedKeys_nodup (rows : List PrepRow) : (sortedKeys rows).Nodup := by
  unfold sortedKeys
  exact (List.mergeSort_perm _ keyLe).nodup_iff.mpr (List.nodup_dedup _)

/-- A key is a group key exactly when some row carries it. -/
lemma mem_sortedKeys {rows : List PrepRow} {k : String × Int} :
    k ∈ sortedKeys rows ↔ ∃ r ∈ rows, rowKey r = k := by
  unfold sortedKeys
  rw [List.mem_mergeSort, List.mem_dedup, List.mem_map]

/-- In a duplicate-free list, exactly one entry is equal to a member. -/
lemma countP_beq_eq_one {l : List (String × Int)} {k : String × Int}
    (hnd : l.Nodup) (hk : k ∈ l) : l.countP (fun a => a == k) = 1 := by
  induction l with
  | nil => exact absurd hk (by simp)
  | cons a l ih =>
    obtain ⟨hnotin, hnd2⟩ := List.nodup_cons.mp hnd
    rw [List.countP_cons]
    rcases List.mem_cons.mp hk with rfl | hk2
    · have hz : l.countP (fun x => x == k) = 0 := by
        rw [List.countP_eq_zero]
        intro b hb hbeq
        rw [beq_iff_eq] at hbeq
        exact hnotin (hbeq ▸ hb)
      rw [hz]
      simp
    · have hne : (a == k) = false := by
        rw [beq_eq_false_iff_ne]
        intro he
        exact hnotin (he ▸ hk2)
      rw [ih hnd2 hk2, hne]
      rfl

/-- The aggregated table has exactly one row per group key, and that row is
the aggregation of the key's group. -/
lemma aggregate_unique {p : List PrepRow} {k : String × Int}
    (hk : k ∈ sortedKeys p) :
    (aggregate p).countP (fun r => rowKey r == k) = 1 ∧
      ∀ y ∈ aggregate p, rowKey y = k → y = aggGroup p k := by
  constructor
  · unfold aggregate
    rw [List.countP_map]
    have hpt : ((fun r => rowKey r == k) ∘ aggGroup p) = fun a => a == k := by
      funext a
      rw [Function.comp_apply, rowKey_aggGroup]
    rw [hpt]
    exact countP_beq_eq_one (sortedKeys_nodup p) hk
  · intro y hy hkey
    unfold aggregate at hy
    rcases List.mem_map.mp hy with ⟨a, _, rfl⟩
    rw [rowKey_aggGroup] at hkey
    rw [hkey]

/-- Filtering by a predicate that holds on the key's unique row keeps the
count at one. -/
lemma countP_filter_of_unique {l : List PrepRow} {k : String × Int}
    {q : PrepRow → Bool}
    (hc : l.countP (fun r => rowKey r == k) = 1)
    (hq : ∀ y ∈ l, rowKey y = k → q y = true) :
    (l.filter q).countP (fun r => rowKey r == k) = 1 := by
  rw [List.countP_filter]
  rw [List.countP_congr ?_]
  · exact hc
  · intro a ha
    simp only [Bool.and_eq_true, beq_iff_eq]
    constructor
    · rintro ⟨hk, _⟩
      exact hk
    · intro hk
      exact ⟨hk, hq a ha hk⟩

lemma ffillSeq_countP (k : String × Int) :
    ∀ (carry : Vals) (seq : List PrepRow),
      (ffillSeq carry seq).countP (fun r => rowKey r == k) =
        seq.countP (fun r => rowKey r == k)
  | _, [] => rfl
  | carry, r :: rs => by
    unfold ffillSeq
    rw [List.countP_cons, List.countP_cons, ffillSeq_countP k (fillVals carry r.vals) rs]
    rfl

/-- Every forward-filled row comes from a same-key source row, and complete
source rows pass through unchanged. -/
lemma ffillSeq_mem {y : PrepRow} :
    ∀ {carry : Vals} {seq : List PrepRow}, y ∈ ffillSeq carry seq →
      ∃ r ∈ seq, rowKey r = rowKey y ∧ (allSome r.vals = true → y = r)
  | _, [], h => absurd h (by simp [ffillSeq])
  | carry, r :: rs, h => by
    unfold ffillSeq at h
    rcases List.mem_cons.mp h with hy | hy
    · refine ⟨r, List.mem_cons_self r rs, by rw [hy]; rfl, ?_⟩
      intro hfull
      rw [hy, fillVals_complete carry hfull]
    · obtain ⟨r2, hr2, hkey, hcomp⟩ := ffillSeq_mem hy
      exact ⟨r2, List.mem_cons_of_mem r hr2, hkey, hcomp⟩

lemma countP_flatMap {α β : Type} (p : β → Bool) :
    ∀ (l : List α) (f : α → List β),
      (l.flatMap f).countP p = (l.map (fun a => (f a).countP p)).sum
  | [], _ => rfl
  | a :: l, f => by
    rw [List.flatMap_cons, List.countP_append, List.map_cons, List.sum_cons,
      countP_flatMap p l f]

/-- Restricting to one state's rows keeps the full key count when the key
names that state, and no rows otherwise. -/
lemma countP_key_filter_state (sw : List PrepRow) (k : String × Int) (st : String) :
    (sw.filter (fun r => r.state == st)).countP (fun r => rowKey r == k) =
      if k.1 = st then sw.countP (fun r => rowKey r == k) else 0 := by
  rw [List.countP_filter]
  by_cases hks : k.1 = st
  · rw [if_pos hks]
    apply List.countP_congr
    intro r _
    simp only [Bool.and_eq_true, beq_iff_eq]
    constructor
    · rintro ⟨hk, _⟩
      exact hk
    · intro hk
      refine ⟨hk, ?_⟩
      rw [← hks, ← hk]
      rfl
  · rw [if_neg hks]
    rw [List.countP_eq_zero]
    intro r _
    simp only [Bool.and_eq_true, beq_iff_eq, not_and]
    intro hk hst
    apply hks
    rw [← hst, ← hk]
    rfl

/-- Summing the per-state key counts over a duplicate-free state list gives
the full key count when the key's state is listed, and zero otherwise. -/
lemma sum_state_chunks (sw : List PrepRow) (k : String × Int) :
    ∀ sts : List String, sts.Nodup →
      (sts.map (fun st =>
        (sw.filter (fun r => r.state == st)).countP (fun r => rowKey r == k))).sum =
      if k.1 ∈ sts then sw.countP (fun r => rowKey r == k) else 0
  | [], _ => by simp
  | st :: sts, hnd => by
    rw [List.map_cons, List.sum_cons, countP_key_filter_state,
      sum_state_chunks sw k sts (List.nodup_cons.mp hnd).2]
    by_cases hks : k.1 = st
    · have hnotin : k.1 ∉ sts := by
        rw [hks]
        exact (List.nodup_cons.mp hnd).1
      rw [if_pos hks, if_neg hnotin,
        if_pos (show k.1 ∈ st :: sts from by rw [hks]; exact List.mem_cons_self st sts)]
      omega
    · by_cases hmem : k.1 ∈ sts
      · rw [if_neg hks, if_pos hmem, if_pos (List.mem_cons_of_mem st hmem)]
        omega
      · have hnotin2 : k.1 ∉ st :: sts := by
          intro hc
          rcases List.mem_cons.mp hc with hc | hc
          · exact hks hc
          · exact hmem hc
        rw [if_neg hks, if_neg hmem, if_neg hnotin2]

/-- Per-state forward filling preserves the count of any key carried by some
row of the (whole) table. -/
lemma ffillByState_countP {sw : List PrepRow} {k : String × Int}
    (hs : k.1 ∈ statesOf sw) :
    (ffillByState sw).countP (fun r => rowKey r == k) =
      sw.countP (fun r => rowKey r == k) := by
  unfold ffillByState
  rw [countP_flatMap]
  simp only [ffillSeq_countP]
  rw [sum_state_chunks sw k (statesOf sw) (List.nodup_dedup _), if_pos hs]

lemma ffillByState_mem {sw : List PrepRow} {y : PrepRow}
    (h : y ∈ ffillByState sw) :
    ∃ r ∈ sw, rowKey r = rowKey y ∧ (allSome r.vals = true → y = r) := by
  unfold ffillByState at h
  rcases List.mem_flatMap.mp h with ⟨st, _, hy⟩
  obtain ⟨r, hr, hkey, hcomp⟩ := ffillSeq_mem hy
  exact ⟨r, (List.mem_filter.mp hr).1, hkey, hcomp⟩

lemma medianFill_countP (sw : List PrepRow) (k : String × Int) :
    (medianFill sw).countP (fun r => rowKey r == k) =
      sw.countP (fun r => rowKey r == k) := by
  unfold medianFill
  rw [List.countP_map]
  rfl

lemma medianFill_mem {sw : List PrepRow} {y : PrepRow}
    (h : y ∈ medianFill sw) :
    ∃ r ∈ sw, rowKey r = rowKey y ∧ (allSome r.vals = true → y = r) := by
  unfold medianFill at h
  rcases List.mem_map.mp h with ⟨r, hr, rfl⟩
  refine ⟨r, hr, rfl, ?_⟩
  intro hfull
  obtain ⟨h1, h2, h3, h4, h5, h6, h7, h8, h9, h10, h11, h12, h13, h14, h15, h16⟩ :=
    allSome_fields hfull
  dsimp only
  rw [cellFill_some h1, cellFill_some h2, cellFill_some h3, cellFill_some h4,
    cellFill_some h5, cellFill_some h6, cellFill_some h7, cellFill_some h8,
    cellFill_some h9, cellFill_some h10, cellFill_some h11, cellFill_some h12,
    cellFill_some h13, cellFill_some h14, cellFill_some h15, cellFill_some h16]

/-- Extracting the present values of an all-present column is just reading
them off. -/
lemma filterMap_id_of_allSome :
    ∀ {cols : List Cell}, (∀ c ∈ cols, c.isSome) →
      cols.filterMap id = cols.map (fun c => c.getD 0)
  | [], _ => rfl
  | c :: cols, h => by
    cases c with
    | none => exact absurd (h none (List.mem_cons_self none cols)) (by simp)
    | some v =>
      rw [List.map_cons]
      rw [show (some v :: cols).filterMap id = v :: cols.filterMap id from rfl]
      rw [filterMap_id_of_allSome (fun c hc => h c (List.mem_cons_of_mem _ hc))]
      rfl

lemma cellSum_of_allSome {cols : List Cell} (h : ∀ c ∈ cols, c.isSome) :
    cellSum cols = (cols.map (fun c => c.getD 0)).sum := by
  unfold cellSum
  rw [filterMap_id_of_allSome h]

lemma cellMean_of_allSome {cols : List Cell} (h : ∀ c ∈ cols, c.isSome)
    (hne : cols ≠ []) :
    cellMean cols = some ((cols.map (fun c => c.getD 0)).sum / (cols.length : ℚ)) := by
  unfold cellMean
  rw [filterMap_id_of_allSome h]
  rw [if_neg ?hcond, List.length_map]
  case hcond =>
    simp only [List.isEmpty_iff, List.map_eq_nil_iff]
    exact hne

/-- The claim's aggregation contract for one output row over its contributing
rows `g`: count columns hold the column sums, percentage columns hold the
column means. -/
def aggSpec (g : List PrepRow) (r : PrepRow) : Prop :=
  r.vals.nInpBeds = some ((g.map (fun x => x.vals.nInpBeds.getD 0)).sum) ∧
  r.vals.nInpOcc = some ((g.map (fun x => x.vals.nInpOcc.getD 0)).sum) ∧
  r.vals.nIcuBeds = some ((g.map (fun x => x.vals.nIcuBeds.getD 0)).sum) ∧
  r.vals.nIcuOcc = some ((g.map (fun x => x.vals.nIcuOcc.getD 0)).sum) ∧
  r.vals.covid = some ((g.map (fun x => x.vals.covid.getD 0)).sum) ∧
  r.vals.flu = some ((g.map (fun x => x.vals.flu.getD 0)).sum) ∧
  r.vals.rsv = some ((g.map (fun x => x.vals.rsv.getD 0)).sum) ∧
  r.vals.covidIcu = some ((g.map (fun x => x.vals.covidIcu.getD 0)).sum) ∧
  r.vals.fluIcu = some ((g.map (fun x => x.vals.fluIcu.getD 0)).sum) ∧
  r.vals.rsvIcu = some ((g.map (fun x => x.vals.rsvIcu.getD 0)).sum) ∧
  r.vals.nRepInp = some ((g.map (fun x => x.vals.nRepInp.getD 0)).sum) ∧
  r.vals.nRepIcu = some ((g.map (fun x => x.vals.nRepIcu.getD 0)).sum) ∧
  r.vals.pctInpOcc =
    some ((g.map (fun x => x.vals.pctInpOcc.getD 0)).sum / (g.length : ℚ)) ∧
  r.vals.pctIcuOcc =
    some ((g.map (fun x => x.vals.pctIcuOcc.getD 0)).sum / (g.length : ℚ)) ∧
  r.vals.pctRepInp =
    some ((g.map (fun x => x.vals.pctRepInp.getD 0)).sum / (g.length : ℚ)) ∧
  r.vals.pctRepIcu =
    some ((g.map (fun x => x.vals.pctRepIcu.getD 0)).sum / (g.length : ℚ))

lemma aggCol_sum {g : List PrepRow} (fld : PrepRow → Cell)
    (hc : ∀ r ∈ g, (fld r).isSome) :
    cellSum (g.map fld) = (g.map (fun x => (fld x).getD 0)).sum := by
  have hcm : ∀ c ∈ g.map fld, c.isSome := by
    intro c hmem
    rcases List.mem_map.mp hmem with ⟨r, hr, rfl⟩
    exact hc r hr
  rw [cellSum_of_allSome hcm, List.map_map]
  rfl

lemma aggCol_mean {g : List PrepRow} (fld : PrepRow → Cell)
    (hc : ∀ r ∈ g, (fld r).isSome) (hgne : g ≠ []) :
    cellMean (g.map fld) =
      some ((g.map (fun x => (fld x).getD 0)).sum / (g.length : ℚ)) := by
  have hcm : ∀ c ∈ g.map fld, c.isSome := by
    intro c hmem
    rcases List.mem_map.mp hmem with ⟨r, hr, rfl⟩
    exact hc r hr
  have hne2 : g.map fld ≠ [] := fun he => hgne (List.map_eq_nil_iff.mp he)
  rw [cellMean_of_allSome hcm hne2, List.map_map, List.length_map]
  rfl

/-- When every contributing row of the group is complete and the group is
non-empty, the aggregated row satisfies the claim's sums-and-means contract
and is itself complete. -/
lemma aggGroup_spec {p : List PrepRow} {k : String × Int}
    (hfull : ∀ r ∈ groupRows p k, allSome r.vals)
    (hgne : groupRows p k ≠ []) :
    aggSpec (groupRows p k) (aggGroup p k) ∧ allSome (aggGroup p k).vals := by
  have h1 : ∀ r ∈ groupRows p k, (r.vals.nInpBeds).isSome :=
    fun r hr => (allSome_fields (hfull r hr)).1
  have h2 : ∀ r ∈ groupRows p k, (r.vals.nInpOcc).isSome :=
    fun r hr => (allSome_fields (hfull r hr)).2.1
  have h3 : ∀ r ∈ groupRows p k, (r.vals.nIcuBeds).isSome :=
    fun r hr => (allSome_fields (hfull r hr)).2.2.1
  have h4 : ∀ r ∈ groupRows p k, (r.vals.nIcuOcc).isSome :=
    fun r hr => (allSome_fields (hfull r hr)).2.2.2.1
  have h5 : ∀ r ∈ groupRows p k, (r.vals.pctInpOcc).isSome :=
    fun r hr => (allSome_fields (hfull r hr)).2.2.2.2.1
  have h6 : ∀ r ∈ groupRows p k, (r.vals.pctIcuOcc).isSome :=
    fun r hr => (allSome_fields (hfull r hr)).2.2.2.2.2.1
  have h7 : ∀ r ∈ groupRows p k, (r.vals.covid).isSome :=
    fun r hr => (allSome_fields (hfull r hr)).2.2.2.2.2.2.1
  have h8 : ∀ r ∈ groupRows p k, (r.vals.flu).isSome :=
    fun r hr => (allSome_fields (hfull r hr)).2.2.2.2.2.2.2.1
  have h9 : ∀ r ∈ groupRows p k, (r.vals.rsv).isSome :=
    fun r hr => (allSome_fields (hfull r hr)).2.2.2.2.2.2.2.2.1
  have h10 : ∀ r ∈ groupRows p k, (r.vals.covidIcu).isSome :=
    fun r hr => (allSome_fields (hfull r hr)).2.2.2.2.2.2.2.2.2.1
  have h11 : ∀ r ∈ groupRows p k, (r.vals.fluIcu).isSome :=
    fun r hr => (allSome_fields (hfull r hr)).2.2.2.2.2.2.2.2.2.2.1
  have h12 : ∀ r ∈ groupRows p k, (r.vals.rsvIcu).isSome :=
    fun r hr => (allSome_fields (hfull r hr)).2.2.2.2.2.2.2.2.2.2.2.1
  have h13 : ∀ r ∈ groupRows p k, (r.vals.nRepInp).isSome :=
    fun r hr => (allSome_fields (hfull r hr)).2.2.2.2.2.2.2.2.2.2.2.2.1
  have h14 : ∀ r ∈ groupRows p k, (r.vals.nRepIcu).isSome :=
    fun r hr => (allSome_fields (hfull r hr)).2.2.2.2.2.2.2.2.2.2.2.2.2.1
  have h15 : ∀ r ∈ groupRows p k, (r.vals.pctRepInp).isSome :=
    fun r hr => (allSome_fields (hfull r hr)).2.2.2.2.2.2.2.2.2.2.2.2.2.2.1
  have h16 : ∀ r ∈ groupRows p k, (r.vals.pctRepIcu).isSome :=
    fun r hr => (allSome_fields (hfull r hr)).2.2.2.2.2.2.2.2.2.2.2.2.2.2.2
  have hmInp : (aggGroup p k).vals.pctInpOcc =
      some (((groupRows p k).map (fun x => x.vals.pctInpOcc.getD 0)).sum /
        ((groupRows p k).length : ℚ)) :=
    aggCol_mean (fun r => r.vals.pctInpOcc) h5 hgne
  have hmIcu : (aggGroup p k).vals.pctIcuOcc =
      some (((groupRows p k).map (fun x => x.vals.pctIcuOcc.getD 0)).sum /
        ((groupRows p k).length : ℚ)) :=
    aggCol_mean (fun r => r.vals.pctIcuOcc) h6 hgne
  have hmRepInp : (aggGroup p k).vals.pctRepInp =
      some (((groupRows p k).map (fun x => x.vals.pctRepInp.getD 0)).sum /
        ((groupRows p k).length : ℚ)) :=
    aggCol_mean (fun r => r.vals.pctRepInp) h15 hgne
  have hmRepIcu : (aggGroup p k).vals.pctRepIcu =
      some (((groupRows p k).map (fun x => x.vals.pctRepIcu.getD 0)).sum /
        ((groupRows p k).length : ℚ)) :=
    aggCol_mean (fun r => r.vals.pctRepIcu) h16 hgne
  constructor
  · exact ⟨congrArg some (aggCol_sum _ h1), congrArg some (aggCol_sum _ h2),
      congrArg some (aggCol_sum _ h3), congrArg some (aggCol_sum _ h4),
      congrArg some (aggCol_sum _ h7), congrArg some (aggCol_sum _ h8),
      congrArg some (aggCol_sum _ h9), congrArg some (aggCol_sum _ h10),
      congrArg some (aggCol_sum _ h11), congrArg some (aggCol_sum _ h12),
      congrArg some (aggCol_sum _ h13), congrArg some (aggCol_sum _ h14),
      hmInp, hmIcu, hmRepInp, hmRepIcu⟩
  · unfold allSome
    rw [hmInp, hmIcu, hmRepInp, hmRepIcu]
    rfl

/-- C1 counterexample: a raw table with a single 50-state row whose numeric
cells are all missing. The pair ("AL", 0) survives the 50-state filter, yet
under the default state_median strategy the aggregated row is dropped (its
occupancy means stay missing), so `make_clean_state_week` returns no row at
all for that pair. -/
theorem spec_C1_counterexample :
    (prepStage [⟨some 0, some "AL", noneVals⟩]
        ⟨true, "state_median", true⟩).map rowKey = [("AL", 0)] ∧
    make_clean_state_week [⟨some 0, some "AL", noneVals⟩]
        ⟨true, "state_median", true⟩ = Except.ok [] := by
  with_unfolding_all decide

/-- C1 as amended: under any of the three recognized strategies, for every
(state, week) pair that survives the 50-state filter all of whose contributing
(filtered, percent-normalized) rows have every numeric cell present, the
output contains exactly one row for the pair, whose count columns are the
column sums and whose percentage columns are the column means over the
contributing rows. -/
theorem spec_C1 (raw : List RawRow) (cfg : PreprocessConfig) (s : String) (w : Int)
    (hstrat : cfg.missing_strategy = "drop" ∨ cfg.missing_strategy = "ffill" ∨
      cfg.missing_strategy = "state_median")
    (hin : ∃ r ∈ prepStage raw cfg, rowKey r = (s, w))
    (hfull : ∀ r ∈ groupRows (prepStage raw cfg) (s, w), allSome r.vals) :
    ∃ out, make_clean_state_week raw cfg = Except.ok out ∧
      out.countP (fun r => rowKey r == (s, w)) = 1 ∧
      ∀ r ∈ out, rowKey r = (s, w) →
        aggSpec (groupRows (prepStage raw cfg) (s, w)) r := by
  have hkmem : (s, w) ∈ sortedKeys (prepStage raw cfg) := mem_sortedKeys.mpr hin
  obtain ⟨hcount, huniq⟩ := aggregate_unique hkmem
  obtain ⟨r0, hr0, hr0k⟩ := hin
  have hr0g : r0 ∈ groupRows (prepStage raw cfg) (s, w) :=
    List.mem_filter.mpr ⟨hr0, by rw [beq_iff_eq]; exact hr0k⟩
  have hgne : groupRows (prepStage raw cfg) (s, w) ≠ [] := by
    intro he
    rw [he] at hr0g
    exact absurd hr0g (by simp)
  obtain ⟨hspec, hxall⟩ := aggGroup_spec hfull hgne
  have hx : aggGroup (prepStage raw cfg) (s, w) ∈ aggregate (prepStage raw cfg) :=
    List.mem_map_of_mem _ hkmem
  rcases hstrat with hs | hs | hs
  · refine ⟨dropnaAll (aggregate (prepStage raw cfg)), ?_, ?_, ?_⟩
    · simp [make_clean_state_week, hs]
    · apply countP_filter_of_unique hcount
      intro y hy hk
      rw [huniq y hy hk]
      exact hxall
    · intro r hr hk
      rw [huniq r (List.mem_filter.mp hr).1 hk]
      exact hspec
  · have hsmem : (s, w).1 ∈ statesOf (aggregate (prepStage raw cfg)) :=
      state_mem_statesOf hx
    have huniq2 : ∀ y ∈ ffillByState (aggregate (prepStage raw cfg)),
        rowKey y = (s, w) → y = aggGroup (prepStage raw cfg) (s, w) := by
      intro y hy hk
      obtain ⟨r, hrsw, hkeq, hcomp⟩ := ffillByState_mem hy
      have hr : r = aggGroup (prepStage raw cfg) (s, w) :=
        huniq r hrsw (by rw [hkeq, hk])
      rw [hcomp (by rw [hr]; exact hxall), hr]
    refine ⟨dropnaAll (ffillByState (aggregate (prepStage raw cfg))), ?_, ?_, ?_⟩
    · simp [make_clean_state_week, hs]
    · apply countP_filter_of_unique
      · rw [ffillByState_countP hsmem]
        exact hcount
      · intro y hy hk
        rw [huniq2 y hy hk]
        exact hxall
    · intro r hr hk
      rw [huniq2 r (List.mem_filter.mp hr).1 hk]
      exact hspec
  · have huniq3 : ∀ y ∈ medianFill (aggregate (prepStage raw cfg)),
        rowKey y = (s, w) → y = aggGroup (prepStage raw cfg) (s, w) := by
      intro y hy hk
      obtain ⟨r, hrsw, hkeq, hcomp⟩ := medianFill_mem hy
      have hr : r = aggGroup (prepStage raw cfg) (s, w) :=
        huniq r hrsw (by rw [hkeq, hk])
      rw [hcomp (by rw [hr]; exact hxall), hr]
    refine ⟨dropnaPct (medianFill (aggregate (prepStage raw cfg))), ?_, ?_, ?_⟩
    · simp [make_clean_state_week, hs]
    · apply countP_filter_of_unique
      · rw [medianFill_countP]
        exact hcount
      · intro y hy hk
        rw [huniq3 y hy hk]
        obtain ⟨_, _, _, _, _, h6, _⟩ :=
          allSome_fields hxall
        simp only [Bool.and_eq_true]
        constructor
        · exact (allSome_fields hxall).2.2.2.2.2.1
        · exact (allSome_fields hxall).2.2.2.2.1
    · intro r hr hk
      rw [huniq3 r (List.mem_filter.mp hr).1 hk]
      exact hspec

/-- Witness for C1: two complete raw rows for the same (state, week) pair
under the default state_median strategy. -/
theorem spec_C1_witness :
    ∃ out, make_clean_state_week
        [⟨some 1, some "AL", testVals 10 20⟩, ⟨some 1, some "AL", testVals 30 40⟩]
        ⟨true, "state_median", true⟩ = Except.ok out ∧
      out.countP (fun r => rowKey r == ("AL", 1)) = 1 ∧
      ∀ r ∈ out, rowKey r = ("AL", 1) →
        aggSpec (groupRows (prepStage
          [⟨some 1, some "AL", testVals 10 20⟩, ⟨some 1, some "AL", testVals 30 40⟩]
          ⟨true, "state_median", true⟩) ("AL", 1)) r :=
  spec_C1 [⟨some 1, some "AL", testVals 10 20⟩, ⟨some 1, some "AL", testVals 30 40⟩]
    ⟨true, "state_median", true⟩ "AL" 1
    (Or.inr (Or.inr rfl))
    (by with_unfolding_all decide)
    (by with_unfolding_all decide)

end CareForHospitals
